import Mathlib

/-!
# ion-sample: signalling handlers, stream registry and token helper

A shallow embedding of the browser scripts of the repository:

* `src/viewer-raw/index.js` (namespace `ViewerRaw`): the WebSocket handlers
  `onopen`, `onmessage`, `onicecandidate` and the stream registry kept by
  `ontrack` / `onremovetrack`;
* `src/js2/index.js` (namespace `Js2`): the older variant of the same handlers;
* `src/viewer/index.js` (namespace `Viewer`): `b64` and `makeToken`.

Handlers are functions on an explicit session state. Every call into the peer
connection and every frame handed to the socket is appended to a trace, and a
promise that has been created but not yet settled is an entry of `pending`;
its settlement is an event of its own, so that other events can arrive while a
promise chain is still running.
-/

set_option autoImplicit false

namespace IonSample

/-! ## JavaScript values -/

/-- A JavaScript value as the handlers meet it: the outcome of `JSON.parse`
(numbers restricted to integers), plus `undefined`, which a read of a missing
property yields. -/
inductive JsVal where
  | undefined
  | null
  | bool (b : Bool)
  | num (n : Int)
  | str (s : String)
  | arr (items : List JsVal)
  | obj (fields : List (String × JsVal))

/-- Exceptions the embedded code can raise. -/
inductive JsError where
  /-- Raised by `JSON.parse` on text that is not JSON. -/
  | syntaxError
  /-- Raised by a property read on `null` / `undefined`, or by a failed conversion. -/
  | typeError
  /-- Raised by `btoa` on a character above U+00FF. -/
  | invalidCharacter
  deriving DecidableEq, Repr

/-- Own property `k` of a parsed object: the entry for `k`, `undefined` when there is none. -/
def lookup (k : String) : List (String × JsVal) → JsVal
  | [] => .undefined
  | (k', v) :: rest => if k' = k then v else lookup k rest

namespace JsVal

/-- The property read `v.k`, for the names the handlers read (`id`, `result`,
`method`, `params`): a `TypeError` on `null` and `undefined`, the own property
on an object, `undefined` on every other value. -/
def get (v : JsVal) (k : String) : Except JsError JsVal :=
  match v with
  | .undefined => .error .typeError
  | .null => .error .typeError
  | .obj fields => .ok (lookup k fields)
  | _ => .ok .undefined

/-- ToBoolean. -/
def truthy : JsVal → Bool
  | .undefined => false
  | .null => false
  | .bool b => b
  | .num n => n != 0
  | .str s => s != ""
  | .arr _ => true
  | .obj _ => true

/-- The test `v == null`. -/
def isNullish : JsVal → Bool
  | .undefined => true
  | .null => true
  | _ => false

/-- The test `v === s` for a string literal `s`. -/
def strictEqStr (v : JsVal) (s : String) : Bool :=
  match v with
  | .str t => t == s
  | _ => false

end JsVal

/-- Conversions of the host that the embedding leaves open: they depend on
number formatting and IEEE rounding. -/
structure Host where
  /-- ToPrimitive of an array or object: a string, or a `TypeError` when no
  conversion method is callable. -/
  toPrimitive : JsVal → Except JsError String
  /-- Whether the numeric value of a string (StringToNumber) is the number 1. -/
  stringIsOne : String → Bool

/-- The test `v == 1`. -/
def looseEqOne (h : Host) (v : JsVal) : Except JsError Bool :=
  match v with
  | .undefined => .ok false
  | .null => .ok false
  | .bool b => .ok b
  | .num n => .ok (n == 1)
  | .str s => .ok (h.stringIsOne s)
  | .arr _ => (h.toPrimitive v).map h.stringIsOne
  | .obj _ => (h.toPrimitive v).map h.stringIsOne

/-- The test `v == w` for the words `w` the handlers compare with (`offer`,
`trickle`): their numeric value is NaN, so no number or boolean equals them. -/
def looseEqWord (h : Host) (v : JsVal) (w : String) : Except JsError Bool :=
  match v with
  | .str s => .ok (s == w)
  | .arr _ => (h.toPrimitive v).map (fun s => s == w)
  | .obj _ => (h.toPrimitive v).map (fun s => s == w)
  | _ => .ok false

/-! ## Session state -/

/-- An asynchronous operation of the peer connection. -/
inductive Op where
  | createOffer
  | createAnswer
  | setLocalDescription (d : JsVal)
  | setRemoteDescription (d : JsVal)
  | addIceCandidate (c : JsVal)

/-- A frame handed to `webSocket.send` through `jrpc.toStream`. -/
inductive Rpc where
  | call (id : Nat) (method : String) (params : JsVal)
  | notification (method : String) (params : JsVal)

/-- One observable effect of a handler. -/
inductive Action where
  /-- The call `peerConnection.addTransceiver(kind, {direction})`; `none` when no options are passed. -/
  | addTransceiver (kind : String) (direction : Option String)
  /-- An operation of the peer connection is called. -/
  | invoke (op : Op)
  /-- A frame is sent. -/
  | send (m : Rpc)

/-- What the code has chained on a pending promise, to run when it fulfils. -/
inductive Next where
  /-- In `onopen`, after `await createOffer()`: `setLocalDescription(offer)`. -/
  | thenSetLocalOffer (sid : String)
  /-- In `onopen`, after `await setLocalDescription(offer)`: `jrpc.call('join', ...)`. -/
  | thenSendJoin (sid : String)
  /-- In the offer branch: `.then(() => createAnswer())`. -/
  | thenCreateAnswer
  /-- In the offer branch: `.then((answer) => setLocalDescription(answer))`. -/
  | thenSetLocalAnswer
  /-- In the offer branch: `.then(() => jrpc.call('answer', localDescription))`. -/
  | thenSendAnswer
  /-- No continuation: at most a `.catch` that logs. -/
  | nothing

/-- How a pending promise settles. -/
inductive Settled where
  | fulfilled (value : JsVal)
  | rejected

/-- The state the handlers of one page share. -/
structure Session where
  /-- The property `peerConnection.localDescription`. -/
  localDescription : JsVal
  /-- The property `peerConnection.remoteDescription`. -/
  remoteDescription : JsVal
  /-- The id of the last call framed by `jrpc`. -/
  lastId : Nat
  /-- Whether `peerConnection.onicecandidate` has been assigned. -/
  candidateHandler : Bool
  /-- Promises not yet settled, oldest first, each with what is chained on it. -/
  pending : List (Op × Next)
  /-- Everything done so far, oldest first. -/
  trace : List Action

/-- The page right after the script has been loaded. -/
def Session.init : Session :=
  { localDescription := .null, remoteDescription := .null, lastId := 0,
    candidateHandler := false, pending := [], trace := [] }

/-- Modelled from the spec: `simple_jsonrpc` (the `jrpc` object) is not under
src/. A call is framed as (method, params, fresh unique id), the first call of a
page having id 1, and is handed to `jrpc.toStream`, which sends it. -/
def jrpcCall (st : Session) (method : String) (params : JsVal) : Session :=
  { st with lastId := st.lastId + 1,
            trace := st.trace ++ [.send (.call (st.lastId + 1) method params)] }

/-- Modelled from the spec: `simple_jsonrpc` is not under src/. A notification
is framed as (method, params) with no id and handed to `jrpc.toStream`. -/
def jrpcNotification (st : Session) (method : String) (params : JsVal) : Session :=
  { st with trace := st.trace ++ [.send (.notification method params)] }

/-- The code calls an operation of the peer connection and chains `next` on the
promise it returns. -/
def invoke (st : Session) (op : Op) (next : Next) : Session :=
  { st with pending := st.pending ++ [(op, next)], trace := st.trace ++ [.invoke op] }

/-- Modelled from the spec: the peer connection (the Media Engine) is not under
src/. A fulfilled set-local-description or set-remote-description makes its
argument the local or remote description; the other operations leave both alone. -/
def engineApply (st : Session) : Op → Session
  | .setLocalDescription d => { st with localDescription := d }
  | .setRemoteDescription d => { st with remoteDescription := d }
  | _ => st

/-- The continuation `next` run with the fulfilment value `v`. -/
def runNext (st : Session) (next : Next) (v : JsVal) : Session :=
  match next with
  | .thenSetLocalOffer sid => invoke st (.setLocalDescription v) (.thenSendJoin sid)
  | .thenSendJoin sid =>
      jrpcCall st "join" (.obj [("offer", st.localDescription), ("sid", .str sid)])
  | .thenCreateAnswer => invoke st .createAnswer .thenSetLocalAnswer
  | .thenSetLocalAnswer => invoke st (.setLocalDescription v) .thenSendAnswer
  | .thenSendAnswer => jrpcCall st "answer" st.localDescription
  | .nothing => st

/-- The `i`-th pending promise settles. A rejection abandons the chain (the
`.catch` logs it, or the rejection stays unhandled); a fulfilment takes effect in
the peer connection and runs the continuation. -/
def settle (st : Session) (i : Nat) (outcome : Settled) : Session :=
  match st.pending.get? i with
  | none => st
  | some (op, next) =>
    let st1 := { st with pending := st.pending.eraseIdx i }
    match outcome with
    | .rejected => st1
    | .fulfilled v => runNext (engineApply st1 op) next v

/-- What a handler leaves behind: the state, and the exception it raised, if any. -/
structure Handled where
  st : Session
  raised : Option JsError

/-- The handler `peerConnection.onicecandidate`, the same in both variants: the
`null` candidate that ends gathering is skipped, any other is sent as a
`trickle` notification. -/
def onicecandidate (st : Session) (candidate : JsVal) : Session :=
  if candidate.isNullish then st
  else jrpcNotification st "trickle" (.obj [("candidate", candidate), ("target", .num 0)])

/-- An event of the page. The frame of a message is the outcome of
`JSON.parse(message.data)`. -/
inductive Event where
  | opened
  | message (frame : Except JsError JsVal)
  | icecandidate (candidate : JsVal)
  | settle (i : Nat) (outcome : Settled)

namespace ViewerRaw

/-- The handler `webSocket.onopen` of viewer-raw, up to its first `await`: it
assigns `onicecandidate`, adds the two transceivers and calls `createOffer`.
What follows each `await` is the continuation `thenSetLocalOffer`, then
`thenSendJoin`, run by `settle`. Status text and console output are left out. -/
def onopen (roomId : String) (st : Session) : Session :=
  let st1 := { st with candidateHandler := true }
  let st2 := { st1 with trace := st1.trace ++
    [.addTransceiver "video" (some "recvonly"), .addTransceiver "audio" (some "recvonly")] }
  invoke st2 .createOffer (.thenSetLocalOffer roomId)

/-- The handler `webSocket.onmessage` of viewer-raw. An exception of
`JSON.parse` leaves the handler at once; the first property read raises on
`null`. The branches are tested in the order of the script. -/
def onmessage (st : Session) (frame : Except JsError JsVal) : Handled :=
  match frame with
  | .error e => ⟨st, some e⟩
  | .ok data =>
    match data.get "result", data.get "id", data.get "method", data.get "params" with
    | .ok result, .ok id, .ok method, .ok params =>
      if result.truthy && id.truthy then
        ⟨invoke st (.setRemoteDescription result) .nothing, none⟩
      else if method.strictEqStr "offer" then
        ⟨invoke st (.setRemoteDescription params) .thenCreateAnswer, none⟩
      else if method.strictEqStr "trickle" then
        ⟨invoke st (.addIceCandidate params) .nothing, none⟩
      else ⟨st, none⟩
    | _, _, _, _ => ⟨st, some .typeError⟩

/-- One event of the viewer-raw page. -/
def step (roomId : String) (st : Session) : Event → Session
  | .opened => onopen roomId st
  | .message frame => (onmessage st frame).st
  | .icecandidate c => if st.candidateHandler then onicecandidate st c else st
  | .settle i outcome => settle st i outcome

/-- The events of a list, in order. -/
def run (roomId : String) (st : Session) (evs : List Event) : Session :=
  evs.foldl (step roomId) st

end ViewerRaw

namespace Js2

/-- The room of js2, a constant of the script. -/
def roomId : String := "test room"

/-- The handler `webSocket.onopen` of js2, up to its first `await`; the rest is
the same continuations as in viewer-raw, with the room of js2. -/
def onopen (st : Session) : Session :=
  let st1 := { st with candidateHandler := true }
  let st2 := { st1 with trace := st1.trace ++ [.addTransceiver "video" none] }
  invoke st2 .createOffer (.thenSetLocalOffer roomId)

/-- The handler `webSocket.onmessage` of js2. The tests are `data.id != null &&
data.id == 1`, `data.method == 'offer'`, `data.method == 'trickle'`, in this
order; the offer branch does not wait for `setRemoteDescription` before it
sends `answer` with the local description of that moment. (In the trickle
branch `this.peerConnection` is the global `peerConnection`.) -/
def onmessage (h : Host) (st : Session) (frame : Except JsError JsVal) : Handled :=
  match frame with
  | .error e => ⟨st, some e⟩
  | .ok data =>
    match data.get "id", data.get "result", data.get "method", data.get "params" with
    | .ok id, .ok result, .ok method, .ok params =>
      match (if id.isNullish then .ok false else looseEqOne h id) with
      | .error e => ⟨st, some e⟩
      | .ok true => ⟨invoke st (.setRemoteDescription result) .nothing, none⟩
      | .ok false =>
        match looseEqWord h method "offer" with
        | .error e => ⟨st, some e⟩
        | .ok true =>
          ⟨jrpcCall (invoke st (.setRemoteDescription params) .nothing) "answer"
              st.localDescription, none⟩
        | .ok false =>
          match looseEqWord h method "trickle" with
          | .error e => ⟨st, some e⟩
          | .ok true => ⟨invoke st (.addIceCandidate params) .nothing, none⟩
          | .ok false => ⟨st, none⟩
    | _, _, _, _ => ⟨st, some .typeError⟩

/-- One event of the js2 page. -/
def step (h : Host) (st : Session) : Event → Session
  | .opened => onopen st
  | .message frame => (onmessage h st frame).st
  | .icecandidate c => if st.candidateHandler then onicecandidate st c else st
  | .settle i outcome => settle st i outcome

/-- The events of a list, in order. -/
def run (h : Host) (st : Session) (evs : List Event) : Session :=
  evs.foldl (step h) st

end Js2

/-! ## Frames and event sequences used in the statements -/

/-- The frame of an inbound response `{jsonrpc, id, result}`. -/
def responseFrame (id result : JsVal) : Except JsError JsVal :=
  .ok (.obj [("jsonrpc", .str "2.0"), ("id", id), ("result", result)])

/-- The frame of an inbound notification `{jsonrpc, method: "offer", params}`. -/
def offerFrame (d : JsVal) : Except JsError JsVal :=
  .ok (.obj [("jsonrpc", .str "2.0"), ("method", .str "offer"), ("params", d)])

/-- The frame of an inbound notification `{jsonrpc, method: "trickle", params}`. -/
def trickleFrame (c : JsVal) : Except JsError JsVal :=
  .ok (.obj [("jsonrpc", .str "2.0"), ("method", .str "trickle"), ("params", c)])

/-- The channel opens, `createOffer` fulfils with `offer`, and
`setLocalDescription` fulfils (with `v`, which the code ignores). -/
def handshake (offer v : JsVal) : List Event :=
  [.opened, .settle 0 (.fulfilled offer), .settle 0 (.fulfilled v)]

/-- A frame that is not a parsed JSON object: unparseable text, or a parsed
value that is `null`, a boolean, a number, a string or an array. -/
def malformed : Except JsError JsVal → Bool
  | .error _ => true
  | .ok (.obj _) => false
  | .ok _ => true

/-- Whether the handler raises on a malformed frame: on unparseable text and on `null`. -/
def raises : Except JsError JsVal → Bool
  | .error _ => true
  | .ok .null => true
  | .ok .undefined => true
  | .ok _ => false

/-- A session description used in examples. -/
def sdp (type body : String) : JsVal := .obj [("type", .str type), ("sdp", .str body)]

/-- A candidate used in examples. -/
def candidate (line : String) : JsVal :=
  .obj [("candidate", .str line), ("sdpMid", .str "0"), ("sdpMLineIndex", .num 0)]

/-! ## The phases of the spec, read off the session -/

/-- The signalling phases the spec names. The scripts keep no such variable. -/
inductive Phase where
  | idle
  | joining
  | joined
  | renegotiating
  deriving DecidableEq, Repr

/-- Whether an action is the sending of a call named `join`. -/
def Action.isJoinCall : Action → Bool
  | .send (.call _ method _) => method == "join"
  | _ => false

/-- Whether an action is the sending of a call named `answer`. -/
def Action.isAnswerCall : Action → Bool
  | .send (.call _ method _) => method == "answer"
  | _ => false

/-- Whether an action is a call of `addIceCandidate`. -/
def Action.isAddIceCandidate : Action → Bool
  | .invoke (.addIceCandidate _) => true
  | _ => false

/-- Whether an action is a call of `createAnswer`. -/
def Action.isCreateAnswer : Action → Bool
  | .invoke .createAnswer => true
  | _ => false

/-- Whether the `join` call has been sent. -/
def joinSent (st : Session) : Bool := st.trace.any Action.isJoinCall

/-- Whether a continuation belongs to the answering of a server offer. -/
def Next.answering : Next → Bool
  | .thenCreateAnswer => true
  | .thenSetLocalAnswer => true
  | .thenSendAnswer => true
  | _ => false

/-- The phase in the words of the spec: `Idle` until the `join` call is sent,
`Joining` until a remote description is set, `Renegotiating` while a server
offer is being answered, `Joined` otherwise. -/
def specPhase (st : Session) : Phase :=
  if !joinSent st then .idle
  else if st.remoteDescription.isNullish then .joining
  else if st.pending.any (fun p => p.2.answering) then .renegotiating
  else .joined

/-! ## The order of events a page can meet -/

/-- Whether an action is the sending of a `trickle` notification. -/
def Action.isTrickle : Action → Bool
  | .send (.notification method _) => method == "trickle"
  | _ => false

/-- Whether an operation is `setLocalDescription`. -/
def Op.isSetLocal : Op → Bool
  | .setLocalDescription _ => true
  | _ => false

/-- Whether a continuation is the sending of the `join` call. -/
def Next.isSendJoin : Next → Bool
  | .thenSendJoin _ => true
  | _ => false

/-- Whether a continuation belongs to `onopen`. -/
def Next.joining : Next → Bool
  | .thenSetLocalOffer _ => true
  | .thenSendJoin _ => true
  | _ => false

/-- Whether a frame is a parsed value whose `method` is the string `offer`. -/
def isOfferFrame : Except JsError JsVal → Bool
  | .ok data =>
    match data.get "method" with
    | .ok method => method.strictEqStr "offer"
    | .error _ => false
  | .error _ => false

/-- Modelled from the spec: the peer connection is not under src/. Both scripts
make it with no candidate pool, so it gathers and reports local candidates only
once a local description has been set. This says that an event, if it is an
`icecandidate` event, arrives in such a state. -/
def canReport (st : Session) : Event → Bool
  | .icecandidate _ => !st.localDescription.isNullish
  | _ => true

/-- The spec has a server offer arrive only once the session is joined. This
says less: an event, if it is a frame whose method is `offer`, arrives after the
`join` call has been sent. -/
def canOffer (st : Session) : Event → Bool
  | .message frame => !isOfferFrame frame || joinSent st
  | _ => true

/-- Every `icecandidate` event of the list arrives once a local description is set. -/
def reportedAfterLocal (step : Session → Event → Session) : Session → List Event → Bool
  | _, [] => true
  | st, ev :: evs => canReport st ev && reportedAfterLocal step (step st ev) evs

/-- Every `offer` frame of the list arrives after the `join` call has been sent. -/
def offersAfterJoin (step : Session → Event → Session) : Session → List Event → Bool
  | _, [] => true
  | st, ev :: evs => canOffer st ev && offersAfterJoin step (step st ev) evs

/-- A host used in examples: no conversion of an array or object succeeds and
no string has the numeric value 1. -/
def exampleHost : Host := ⟨fun _ => .error .typeError, fun _ => false⟩

/-- A session whose `join` call has not been sent and whose peer connection has
no local description: nothing has been trickled, no server offer is being
answered, a pending `setLocalDescription` is the one of `onopen`, and the
continuations of `onopen` are pending only once the candidate handler is assigned. -/
def BeforeJoin (st : Session) : Prop :=
  joinSent st = false ∧ st.localDescription.isNullish = true ∧
  st.trace.any Action.isTrickle = false ∧
  ∀ p ∈ st.pending, p.2.answering = false ∧ (p.1.isSetLocal = true → p.2.isSendJoin = true) ∧
    (p.2.joining = true → st.candidateHandler = true)

/-- A session whose `join` call has been sent; the candidate handler is then assigned. -/
def AfterJoin (st : Session) : Prop :=
  joinSent st = true ∧ st.candidateHandler = true

/-! ## The stream registry of viewer-raw -/

namespace ViewerRaw

/-- The `div` made for one stream: how many `video` and `audio` elements it holds. -/
structure Container where
  videos : Nat
  audios : Nat
  deriving DecidableEq, Repr

/-- A change of the page made by the registry. -/
inductive DomOp where
  /-- The call `remotesDiv.appendChild(container)`. -/
  | appendContainer (streamId : String)
  /-- The call `container.parentNode.removeChild(container)`. -/
  | removeContainer (streamId : String)
  /-- The call `container.appendChild(video)` or `container.appendChild(audio)`. -/
  | appendMedia (streamId : String) (kind : String)
  deriving DecidableEq, Repr

/-- The method `Map.prototype.get`. -/
def mapGet (k : String) : List (String × Container) → Option Container
  | [] => none
  | (k', c) :: rest => if k' = k then some c else mapGet k rest

/-- The method `Map.prototype.set`: the value of an existing key is replaced, a new key goes last. -/
def mapSet (k : String) (c : Container) : List (String × Container) → List (String × Container)
  | [] => [(k, c)]
  | (k', c') :: rest => if k' = k then (k', c) :: rest else (k', c') :: mapSet k c rest

/-- The method `Map.prototype.delete`. -/
def mapDelete (k : String) (m : List (String × Container)) : List (String × Container) :=
  m.filter (fun e => e.1 ≠ k)

/-- The registry and what it acts on. -/
structure Registry where
  /-- The map `streamElements`, from stream id to container. -/
  streamElements : List (String × Container)
  /-- The containers that are children of `remotesDiv`, by stream id, in page order. -/
  remotes : List String
  /-- The tracks each stream holds, as (stream id, track id): what `stream.getTracks()` reads. -/
  tracks : List (String × String)
  /-- The streams whose `onremovetrack` has been assigned. -/
  watched : List String
  /-- Every change made to the page so far, oldest first. -/
  dom : List DomOp
  deriving DecidableEq, Repr

/-- The registry of a page on which no track has arrived. -/
def Registry.init : Registry :=
  { streamElements := [], remotes := [], tracks := [], watched := [], dom := [] }

/-- The tracks of stream `s`: `stream.getTracks()`. -/
def getTracks (st : Registry) (s : String) : List (String × String) :=
  st.tracks.filter (fun e => e.1 = s)

/-- The handler `peerConnection.ontrack`; `stream` is `event.streams[0]`. -/
def ontrack (st : Registry) (stream : Option String) (kind : String) : Registry :=
  match stream with
  | none => st
  | some s =>
    let st1 : Registry :=
      match mapGet s st.streamElements with
      | some _ => st
      | none =>
        { st with streamElements := mapSet s ⟨0, 0⟩ st.streamElements,
                  remotes := st.remotes ++ [s],
                  dom := st.dom ++ [.appendContainer s] }
    let c := (mapGet s st1.streamElements).getD ⟨0, 0⟩
    let st2 : Registry :=
      if kind = "video" then
        if c.videos = 0 then
          { st1 with streamElements := mapSet s { c with videos := c.videos + 1 } st1.streamElements,
                     dom := st1.dom ++ [.appendMedia s "video"] }
        else st1
      else if kind = "audio" then
        if c.audios = 0 then
          { st1 with streamElements := mapSet s { c with audios := c.audios + 1 } st1.streamElements,
                     dom := st1.dom ++ [.appendMedia s "audio"] }
        else st1
      else st1
    { st2 with watched := if s ∈ st2.watched then st2.watched else st2.watched ++ [s] }

/-- The handler `stream.onremovetrack` of stream `s`. -/
def onremovetrack (st : Registry) (s : String) : Registry :=
  if (getTracks st s).length = 0 then
    let st1 : Registry :=
      match mapGet s st.streamElements with
      | some _ =>
        if s ∈ st.remotes then
          { st with remotes := st.remotes.erase s, dom := st.dom ++ [.removeContainer s] }
        else st
      | none => st
    { st1 with streamElements := mapDelete s st1.streamElements }
  else st

/-- What the peer connection reports about tracks. -/
inductive TrackEvent where
  /-- A track event: the track has joined its stream (if it has one) and `ontrack` runs. -/
  | added (stream : Option String) (trackId : String) (kind : String)
  /-- A track has left a stream and the stream fires `removetrack`. -/
  | removed (stream : String) (trackId : String)

/-- Modelled from the spec: the peer connection is not under src/. It puts a new
track into its stream before `ontrack` runs and takes a removed track out before
`removetrack` fires; the handlers are the code of the script. -/
def trackStep (st : Registry) : TrackEvent → Registry
  | .added stream t kind =>
    let st1 : Registry :=
      match stream with
      | some s => if (s, t) ∈ st.tracks then st else { st with tracks := st.tracks ++ [(s, t)] }
      | none => st
    ontrack st1 stream kind
  | .removed s t =>
    let st1 : Registry := { st with tracks := st.tracks.filter (fun e => e ≠ (s, t)) }
    if s ∈ st1.watched then onremovetrack st1 s else st1

/-- The track events of a list, in order. -/
def trackRun (st : Registry) (evs : List TrackEvent) : Registry :=
  evs.foldl trackStep st

/-- How many times the page gained a container for stream `s`. -/
def created (st : Registry) (s : String) : Nat := st.dom.count (.appendContainer s)

/-- How many times the page lost a container for stream `s`. -/
def destroyed (st : Registry) (s : String) : Nat := st.dom.count (.removeContainer s)

/-- The media elements of kind `k` inside the container of `s`; 0 when there is no container. -/
def mediaCount (st : Registry) (s : String) (k : String) : Nat :=
  match mapGet s st.streamElements with
  | none => 0
  | some c => if k = "video" then c.videos else if k = "audio" then c.audios else 0

/-- The container `c` after a track of the given kind has been handled: an
element is added for `video` or `audio` when the container has none of that kind. -/
def attach (c : Container) (kind : String) : Container :=
  if kind = "video" then (if c.videos = 0 then { c with videos := c.videos + 1 } else c)
  else if kind = "audio" then (if c.audios = 0 then { c with audios := c.audios + 1 } else c)
  else c

/-- What holds of the registry after every sequence of track events. -/
structure Inv (st : Registry) : Prop where
  /-- A stream has an entry exactly when it holds a track. -/
  entry_iff : ∀ s, (mapGet s st.streamElements).isSome ↔ getTracks st s ≠ []
  /-- The page holds one container for a stream with an entry, none for any other. -/
  page : ∀ s, st.remotes.count s = if (mapGet s st.streamElements).isSome then 1 else 0
  /-- A stream that holds a track has its `onremovetrack` assigned. -/
  watching : ∀ s, getTracks st s ≠ [] → s ∈ st.watched
  /-- Containers made are the containers removed plus the one on the page. -/
  balance : ∀ s, created st s = destroyed st s + st.remotes.count s
  /-- A container holds at most one element of each kind. -/
  single : ∀ s c, mapGet s st.streamElements = some c → c.videos ≤ 1 ∧ c.audios ≤ 1

end ViewerRaw

/-! ## The token helper of viewer -/

namespace Viewer

/-- The 64 digits of base64. -/
def alphabet : List Char :=
  "ABCDEFGHIJKLMNOPQRSTUVWXYZabcdefghijklmnopqrstuvwxyz0123456789+/".toList

/-- The digit for a 6-bit group. -/
def digit (i : Nat) : Char := alphabet.getD i 'A'

/-- Standard base64 of a list of bytes, three bytes to four digits, padded with `=`. -/
def encode : List Nat → List Char
  | [] => []
  | [a] => [digit (a / 4), digit (a % 4 * 16), '=', '=']
  | [a, b] => [digit (a / 4), digit (a % 4 * 16 + b / 16), digit (b % 16 * 4), '=']
  | a :: b :: c :: rest =>
    digit (a / 4) :: digit (a % 4 * 16 + b / 16) :: digit (b % 16 * 4 + c / 64) ::
      digit (c % 64) :: encode rest

/-- The host function `btoa`: base64 of a string whose characters are all at
most U+00FF, each standing for one byte; an error on any other string. -/
def btoa (s : List Char) : Except JsError (List Char) :=
  if s.all (fun c => decide (c.toNat ≤ 255)) then .ok (encode (s.map Char.toNat))
  else .error .invalidCharacter

/-- The call `s.replace(re, d)` for a global pattern `re` matching the one character `c`. -/
def replaceAll (c d : Char) (s : List Char) : List Char :=
  s.map (fun x => if x = c then d else x)

/-- The call `s.replace(/=+$/, '')`: the leftmost run of `=` that reaches the end
of the string is removed. -/
def replaceTrailingEq : List Char → List Char
  | [] => []
  | c :: cs => if c = '=' ∧ cs.all (fun x => decide (x = '=')) then [] else c :: replaceTrailingEq cs

/-- The function `b64` of viewer. -/
def b64 (s : List Char) : Except JsError (List Char) :=
  (btoa s).map (fun e => replaceTrailingEq (replaceAll '/' '_' (replaceAll '+' '-' e)))

/-- The text `JSON.stringify` gives for the header object of `makeToken`. -/
def headerJson : List Char := "\x7b\"alg\":\"HS256\",\"typ\":\"JWT\"\x7d".toList

/-- The function `makeToken` of viewer. `payloadJson` is the text
`JSON.stringify` gives for the claims object; `sign` is the HMAC-SHA-256 of
`crypto.subtle` under the key made of `apiSecret`, its result read through a
`Uint8Array`, whose elements are bytes. -/
def makeToken (payloadJson : List Char) (sign : List Char → List Nat) :
    Except JsError (List Char) := do
  let header ← b64 headerJson
  let payload ← b64 payloadJson
  let data := header ++ '.' :: payload
  let sig ← b64 ((sign data).map (fun b => Char.ofNat (b % 256)))
  pure (data ++ '.' :: sig)

/-- The encoding in the words of the claim: standard base64 with every `+`
replaced by `-`, every `/` replaced by `_`, and all trailing `=` removed. -/
def specBase64url (s : List Char) : List Char :=
  ((encode (s.map Char.toNat)).map
    (fun c => if c = '+' then '-' else if c = '/' then '_' else c)).rdropWhile
    (fun c => c == '=')

/-- The characters `A`-`Z`, `a`-`z`, `0`-`9`, `-` and `_`. -/
def urlSafe (c : Char) : Bool := c.isAlphanum || c == '-' || c == '_'

/-- The segments of a token between its `.` characters. -/
def segments (token : List Char) : List (List Char) := token.splitOn '.'

end Viewer

/-! # Theorems -/


/-! ### Single handler steps -/

theorem ViewerRaw.raw_trickle_step (st : Session) (c : JsVal) :
    ViewerRaw.onmessage st (trickleFrame c) = ⟨invoke st (.addIceCandidate c) .nothing, none⟩ := by
  simp [ViewerRaw.onmessage, trickleFrame, JsVal.get, lookup, JsVal.truthy, JsVal.strictEqStr]

theorem Js2.js2_trickle_step (h : Host) (st : Session) (c : JsVal) :
    Js2.onmessage h st (trickleFrame c) = ⟨invoke st (.addIceCandidate c) .nothing, none⟩ := by
  simp [Js2.onmessage, trickleFrame, JsVal.get, lookup, JsVal.isNullish, looseEqWord]

theorem ViewerRaw.raw_offer_step (st : Session) (d : JsVal) :
    ViewerRaw.onmessage st (offerFrame d) =
      ⟨invoke st (.setRemoteDescription d) .thenCreateAnswer, none⟩ := by
  simp [ViewerRaw.onmessage, offerFrame, JsVal.get, lookup, JsVal.truthy, JsVal.strictEqStr]

theorem Js2.js2_offer_step (h : Host) (st : Session) (d : JsVal) :
    Js2.onmessage h st (offerFrame d) =
      ⟨jrpcCall (invoke st (.setRemoteDescription d) .nothing) "answer" st.localDescription,
        none⟩ := by
  simp [Js2.onmessage, offerFrame, JsVal.get, lookup, JsVal.isNullish, looseEqWord]

theorem settle_invoke (st : Session) (op : Op) (next : Next) (v : JsVal) (n : Nat)
    (hn : n = st.pending.length) :
    settle (invoke st op next) n (.fulfilled v) =
      runNext (engineApply { st with trace := st.trace ++ [.invoke op] } op) next v := by
  subst hn
  simp [settle, invoke, List.eraseIdx_append_of_length_le (Nat.le_refl st.pending.length)]

/-- In viewer-raw a server offer is answered by the whole chain when every
operation fulfils, also while other promises are pending: set-remote-description,
create-answer, set-local-description of that answer, then one call `answer`
that carries it. -/
theorem ViewerRaw.offer_answered (roomId : String) (st : Session) (d answer v : JsVal) :
    (ViewerRaw.run roomId st
      [.message (offerFrame d), .settle st.pending.length (.fulfilled v),
       .settle st.pending.length (.fulfilled answer),
       .settle st.pending.length (.fulfilled v)]).trace =
      st.trace ++ [.invoke (.setRemoteDescription d), .invoke .createAnswer,
        .invoke (.setLocalDescription answer),
        .send (.call (st.lastId + 1) "answer" answer)] := by
  simp only [ViewerRaw.run, List.foldl, ViewerRaw.step, ViewerRaw.raw_offer_step]
  rw [settle_invoke _ _ _ _ _ rfl]
  simp only [engineApply, runNext]
  rw [settle_invoke _ _ _ _ _ rfl]
  simp only [engineApply, runNext]
  rw [settle_invoke _ _ _ _ _ rfl]
  simp [engineApply, runNext, jrpcCall]


/-! ## Signalling -/

/-- A truthy value is neither `null` nor `undefined`. -/
theorem truthy_not_nullish (b : JsVal) (hb : b.truthy = true) : b.isNullish = false := by
  cases b <;> simp_all [JsVal.truthy, JsVal.isNullish]

/-- C1. Join handshake: once the channel is open and the offer has been created
and set, both variants have called create-offer and set-local-description(offer)
and sent exactly one frame, the call `join` with `{offer, sid}`; a response with
id 1 and a session description as result (an object, so a truthy value) makes
the handler call set-remote-description with that result and do nothing else,
after which the session is joined. -/
theorem join_handshake (h : Host) (roomId : String) (offer v : JsVal) (st : Session)
    (fields : List (String × JsVal)) (b : JsVal)
    (hid : lookup "id" fields = .num 1) (hres : lookup "result" fields = b)
    (hb : b.truthy = true) :
    (ViewerRaw.run roomId Session.init (handshake offer v)).trace =
      [.addTransceiver "video" (some "recvonly"), .addTransceiver "audio" (some "recvonly"),
       .invoke .createOffer, .invoke (.setLocalDescription offer),
       .send (.call 1 "join" (.obj [("offer", offer), ("sid", .str roomId)]))] ∧
    (Js2.run h Session.init (handshake offer v)).trace =
      [.addTransceiver "video" none,
       .invoke .createOffer, .invoke (.setLocalDescription offer),
       .send (.call 1 "join" (.obj [("offer", offer), ("sid", .str "test room")]))] ∧
    ViewerRaw.onmessage st (.ok (.obj fields)) =
      ⟨invoke st (.setRemoteDescription b) .nothing, none⟩ ∧
    Js2.onmessage h st (.ok (.obj fields)) =
      ⟨invoke st (.setRemoteDescription b) .nothing, none⟩ ∧
    (invoke st (.setRemoteDescription b) .nothing).trace =
      st.trace ++ [.invoke (.setRemoteDescription b)] ∧
    specPhase (ViewerRaw.run roomId Session.init
      (handshake offer v ++ [.message (.ok (.obj fields)), .settle 0 (.fulfilled v)])) = .joined ∧
    specPhase (Js2.run h Session.init
      (handshake offer v ++ [.message (.ok (.obj fields)), .settle 0 (.fulfilled v)])) = .joined := by
  have hnn := truthy_not_nullish b hb
  have h1 : (JsVal.num 1).truthy = true := rfl
  have hraw0 : ∀ st0 : Session, ViewerRaw.onmessage st0 (.ok (.obj fields)) =
      ⟨invoke st0 (.setRemoteDescription b) .nothing, none⟩ := by
    intro st0
    simp [ViewerRaw.onmessage, JsVal.get, hid, hres, hb, h1]
  have hjs0 : ∀ st0 : Session, Js2.onmessage h st0 (.ok (.obj fields)) =
      ⟨invoke st0 (.setRemoteDescription b) .nothing, none⟩ := by
    intro st0
    simp [Js2.onmessage, JsVal.get, hid, hres, JsVal.isNullish, looseEqOne]
  refine ⟨rfl, rfl, hraw0 st, hjs0 st, rfl, ?_, ?_⟩
  · simp [ViewerRaw.run, handshake, ViewerRaw.step, hraw0, specPhase, joinSent, settle, invoke,
      runNext, engineApply, jrpcCall, ViewerRaw.onopen, Session.init, Action.isJoinCall,
      Next.answering, hnn]
  · simp [Js2.run, handshake, Js2.step, hjs0, specPhase, joinSent, settle, invoke, runNext,
      engineApply, jrpcCall, Js2.onopen, Js2.roomId, Session.init, Action.isJoinCall,
      Next.answering, hnn]

/-- C1, witness: the response `{jsonrpc, id: 1, result: B}` after the handshake
in room `room1`. -/
theorem join_handshake_witness :
    lookup "id" [("jsonrpc", .str "2.0"), ("id", .num 1), ("result", sdp "answer" "B")] =
      .num 1 ∧
    (sdp "answer" "B").truthy = true ∧
    specPhase (ViewerRaw.run "room1" Session.init
      (handshake (sdp "offer" "A") .undefined ++
        [.message (.ok (.obj [("jsonrpc", .str "2.0"), ("id", .num 1),
            ("result", sdp "answer" "B")])),
         .settle 0 (.fulfilled .undefined)])) = .joined :=
  ⟨rfl, rfl,
   (join_handshake ⟨fun _ => .error .typeError, fun _ => false⟩ "room1" (sdp "offer" "A")
      .undefined Session.init
      [("jsonrpc", .str "2.0"), ("id", .num 1), ("result", sdp "answer" "B")]
      (sdp "answer" "B") rfl rfl rfl).2.2.2.2.2.1⟩

/-- C2, counterexample. In viewer-raw a `trickle` that arrives after the `join`
call and before any answer is passed to add-ice-candidate at once, while the
remote description is still `null`; when the answer then arrives and is set,
no candidate is passed again. -/
theorem candidate_passed_before_remote_description :
    (ViewerRaw.run "room1" Session.init
      (handshake (sdp "offer" "A") .undefined ++
        [.message (trickleFrame (candidate "c1"))])).remoteDescription = .null ∧
    (ViewerRaw.run "room1" Session.init
      (handshake (sdp "offer" "A") .undefined ++
        [.message (trickleFrame (candidate "c1"))])).trace =
      [.addTransceiver "video" (some "recvonly"), .addTransceiver "audio" (some "recvonly"),
       .invoke .createOffer, .invoke (.setLocalDescription (sdp "offer" "A")),
       .send (.call 1 "join" (.obj [("offer", sdp "offer" "A"), ("sid", .str "room1")])),
       .invoke (.addIceCandidate (candidate "c1"))] ∧
    (ViewerRaw.run "room1" Session.init
      (handshake (sdp "offer" "A") .undefined ++
        [.message (trickleFrame (candidate "c1")),
         .message (responseFrame (.num 1) (sdp "answer" "B")),
         .settle 1 (.fulfilled .undefined)])).remoteDescription = sdp "answer" "B" ∧
    (ViewerRaw.run "room1" Session.init
      (handshake (sdp "offer" "A") .undefined ++
        [.message (trickleFrame (candidate "c1")),
         .message (responseFrame (.num 1) (sdp "answer" "B")),
         .settle 1 (.fulfilled .undefined)])).trace =
      [.addTransceiver "video" (some "recvonly"), .addTransceiver "audio" (some "recvonly"),
       .invoke .createOffer, .invoke (.setLocalDescription (sdp "offer" "A")),
       .send (.call 1 "join" (.obj [("offer", sdp "offer" "A"), ("sid", .str "room1")])),
       .invoke (.addIceCandidate (candidate "c1")),
       .invoke (.setRemoteDescription (sdp "answer" "B"))] := by
  refine ⟨rfl, rfl, rfl, rfl⟩

/-- C2, amended. Every remote `trickle` notification is passed to
add-ice-candidate as soon as it arrives, in arrival order and none dropped,
whether or not a remote description has been set: the handlers keep no queue,
and the remote description is left as it was. -/
theorem trickle_applied_on_arrival (h : Host) (roomId : String) (cs : List JsVal)
    (st : Session) :
    (ViewerRaw.run roomId st (cs.map (fun c => .message (trickleFrame c)))).trace =
      st.trace ++ cs.map (fun c => .invoke (.addIceCandidate c)) ∧
    (ViewerRaw.run roomId st (cs.map (fun c => .message (trickleFrame c)))).remoteDescription =
      st.remoteDescription ∧
    (Js2.run h st (cs.map (fun c => .message (trickleFrame c)))).trace =
      st.trace ++ cs.map (fun c => .invoke (.addIceCandidate c)) ∧
    (Js2.run h st (cs.map (fun c => .message (trickleFrame c)))).remoteDescription =
      st.remoteDescription := by
  induction cs generalizing st with
  | nil => simp [ViewerRaw.run, Js2.run]
  | cons c cs ih =>
    obtain ⟨h1, h2, h3, h4⟩ := ih (invoke st (.addIceCandidate c) .nothing)
    simp only [ViewerRaw.run, Js2.run] at h1 h2 h3 h4
    simp only [ViewerRaw.run, Js2.run, List.map_cons, List.foldl_cons, ViewerRaw.step, Js2.step,
      ViewerRaw.raw_trickle_step, Js2.js2_trickle_step, h1, h2, h3, h4]
    simp [invoke]

/-- C3, the failing input. In js2, after the join handshake with offer `offer`
and its answer `b`, a server offer `d` makes the handler call
set-remote-description(d) and at once send the call `answer` whose params
are the local description of that moment, the join offer: create-answer and
set-local-description are never called. -/
theorem js2_answer_carries_join_offer (h : Host) (offer b d v : JsVal) :
    (Js2.run h Session.init
      (handshake offer v ++
        [.message (responseFrame (.num 1) b), .settle 0 (.fulfilled v),
         .message (offerFrame d)])).trace =
      [.addTransceiver "video" none, .invoke .createOffer,
       .invoke (.setLocalDescription offer),
       .send (.call 1 "join" (.obj [("offer", offer), ("sid", .str "test room")])),
       .invoke (.setRemoteDescription b),
       .invoke (.setRemoteDescription d),
       .send (.call 2 "answer" offer)] := by
  simp [Js2.run, handshake, Js2.step, Js2.js2_offer_step]
  simp [Js2.onmessage, responseFrame, JsVal.get, lookup, JsVal.isNullish, looseEqOne]
  rfl

/-- C4, the failing input. In viewer-raw, with the `join` call (id 1)
outstanding, a response with id 7 has its result applied as the remote
description, although the branch is commented as the response to the join
request; js2 ignores the same frame. -/
theorem response_with_other_id_applied (h : Host) :
    (ViewerRaw.run "room1" Session.init (handshake (sdp "offer" "A") .undefined)).trace =
      [.addTransceiver "video" (some "recvonly"), .addTransceiver "audio" (some "recvonly"),
       .invoke .createOffer, .invoke (.setLocalDescription (sdp "offer" "A")),
       .send (.call 1 "join" (.obj [("offer", sdp "offer" "A"), ("sid", .str "room1")]))] ∧
    (ViewerRaw.run "room1" Session.init
      (handshake (sdp "offer" "A") .undefined ++
        [.message (responseFrame (.num 7) (sdp "answer" "B"))])).trace =
      [.addTransceiver "video" (some "recvonly"), .addTransceiver "audio" (some "recvonly"),
       .invoke .createOffer, .invoke (.setLocalDescription (sdp "offer" "A")),
       .send (.call 1 "join" (.obj [("offer", sdp "offer" "A"), ("sid", .str "room1")])),
       .invoke (.setRemoteDescription (sdp "answer" "B"))] ∧
    (Js2.run h Session.init
      (handshake (sdp "offer" "A") .undefined ++
        [.message (responseFrame (.num 7) (sdp "answer" "B"))])).trace =
      [.addTransceiver "video" none,
       .invoke .createOffer, .invoke (.setLocalDescription (sdp "offer" "A")),
       .send (.call 1 "join" (.obj [("offer", sdp "offer" "A"), ("sid", .str "test room")]))] := by
  refine ⟨rfl, rfl, ?_⟩
  simp [Js2.run, handshake, Js2.step, Js2.onmessage, responseFrame, JsVal.get, lookup,
    JsVal.isNullish, looseEqOne, looseEqWord]
  rfl

/-- C8, counterexample. The viewer-raw handler raises on unparseable text (the
SyntaxError of `JSON.parse`) and on the frame `null` (a TypeError on the read
of `data.result`). -/
theorem malformed_frame_raises :
    (ViewerRaw.onmessage Session.init (.error .syntaxError)).raised = some .syntaxError ∧
    (ViewerRaw.onmessage Session.init (.ok .null)).raised = some .typeError := by
  refine ⟨rfl, rfl⟩

/-- C8, amended. A frame that is not a parsed JSON object makes the handler
raise when it is unparseable or `null` and return normally when it is a
boolean, a number, a string or an array; in every case the handler calls no
operation, sends nothing and leaves the session as it was, so the later frames
and events are processed as if that frame had not arrived. In viewer-raw the
same holds, without an exception, of an object that is neither a response nor an
`offer` nor a `trickle`. -/
theorem malformed_frame_ignored (h : Host) (roomId : String) (st : Session)
    (f : Except JsError JsVal) (hf : malformed f = true) (later : List Event) :
    (ViewerRaw.onmessage st f).st = st ∧
    (Js2.onmessage h st f).st = st ∧
    (ViewerRaw.onmessage st f).raised.isSome = raises f ∧
    (Js2.onmessage h st f).raised.isSome = raises f ∧
    ViewerRaw.run roomId st (.message f :: later) = ViewerRaw.run roomId st later ∧
    Js2.run h st (.message f :: later) = Js2.run h st later ∧
    (∀ fields : List (String × JsVal),
      ((lookup "result" fields).truthy && (lookup "id" fields).truthy) = false →
      (lookup "method" fields).strictEqStr "offer" = false →
      (lookup "method" fields).strictEqStr "trickle" = false →
      ViewerRaw.onmessage st (.ok (.obj fields)) = ⟨st, none⟩) := by
  have key : (ViewerRaw.onmessage st f).st = st ∧ (Js2.onmessage h st f).st = st ∧
      (ViewerRaw.onmessage st f).raised.isSome = raises f ∧
      (Js2.onmessage h st f).raised.isSome = raises f := by
    cases f with
    | error e => simp [ViewerRaw.onmessage, Js2.onmessage, raises]
    | ok v =>
      cases v <;>
        simp_all [malformed, ViewerRaw.onmessage, Js2.onmessage, raises, JsVal.get,
          JsVal.truthy, JsVal.strictEqStr, JsVal.isNullish, looseEqWord]
  obtain ⟨k1, k2, k3, k4⟩ := key
  refine ⟨k1, k2, k3, k4, ?_, ?_, ?_⟩
  · simp [ViewerRaw.run, ViewerRaw.step, k1]
  · simp [Js2.run, Js2.step, k2]
  · intro fields h1 h2 h3
    simp only [ViewerRaw.onmessage, JsVal.get, h1, h2, h3]
    simp

/-- C8, witness: the frame `42`, followed by a `trickle`. -/
theorem malformed_frame_ignored_witness :
    malformed (.ok (.num 42)) = true ∧
    (ViewerRaw.onmessage Session.init (.ok (.num 42))).st = Session.init ∧
    ViewerRaw.run "room1" Session.init
        [.message (.ok (.num 42)), .message (trickleFrame (candidate "c1"))] =
      ViewerRaw.run "room1" Session.init [.message (trickleFrame (candidate "c1"))] :=
  ⟨rfl,
   (malformed_frame_ignored ⟨fun _ => .error .typeError, fun _ => false⟩ "room1" Session.init
      (.ok (.num 42)) rfl [.message (trickleFrame (candidate "c1"))]).1,
   (malformed_frame_ignored ⟨fun _ => .error .typeError, fun _ => false⟩ "room1" Session.init
      (.ok (.num 42)) rfl [.message (trickleFrame (candidate "c1"))]).2.2.2.2.1⟩

/-- C9, counterexample. In viewer-raw, once joined, two server offers that
arrive one after the other both have set-remote-description called at once:
the operation for the second starts while the chain of the first is still
pending and no `answer` has been sent. -/
theorem second_offer_starts_at_once :
    (ViewerRaw.run "room1" Session.init
      (handshake (sdp "offer" "A") .undefined ++
        [.message (responseFrame (.num 1) (sdp "answer" "B")), .settle 0 (.fulfilled .undefined),
         .message (offerFrame (sdp "offer" "D1")),
         .message (offerFrame (sdp "offer" "D2"))])).trace =
      [.addTransceiver "video" (some "recvonly"), .addTransceiver "audio" (some "recvonly"),
       .invoke .createOffer, .invoke (.setLocalDescription (sdp "offer" "A")),
       .send (.call 1 "join" (.obj [("offer", sdp "offer" "A"), ("sid", .str "room1")])),
       .invoke (.setRemoteDescription (sdp "answer" "B")),
       .invoke (.setRemoteDescription (sdp "offer" "D1")),
       .invoke (.setRemoteDescription (sdp "offer" "D2"))] ∧
    (ViewerRaw.run "room1" Session.init
      (handshake (sdp "offer" "A") .undefined ++
        [.message (responseFrame (.num 1) (sdp "answer" "B")), .settle 0 (.fulfilled .undefined),
         .message (offerFrame (sdp "offer" "D1")),
         .message (offerFrame (sdp "offer" "D2"))])).pending =
      [(.setRemoteDescription (sdp "offer" "D1"), .thenCreateAnswer),
       (.setRemoteDescription (sdp "offer" "D2"), .thenCreateAnswer)] := by
  refine ⟨rfl, rfl⟩

theorem settle_mid (ld rd : JsVal) (lastId : Nat) (ch : Bool) (pre post : List (Op × Next))
    (op : Op) (next : Next) (trace : List Action) (v : JsVal) :
    settle ⟨ld, rd, lastId, ch, pre ++ (op, next) :: post, trace⟩ pre.length (.fulfilled v) =
      runNext (engineApply ⟨ld, rd, lastId, ch, pre ++ post, trace⟩ op) next v := by
  have hget : (pre ++ (op, next) :: post).get? pre.length = some (op, next) := by
    rw [List.get?_eq_getElem?, List.getElem?_append_right (Nat.le_refl _)]
    simp
  simp only [settle, hget, List.eraseIdx_append_of_length_le (Nat.le_refl pre.length)]
  simp

theorem settle_inert (ld rd : JsVal) (lastId : Nat) (ch : Bool) (pre post : List (Op × Next))
    (c : JsVal) (trace : List Action) (o : Settled) :
    settle ⟨ld, rd, lastId, ch, pre ++ (.addIceCandidate c, .nothing) :: post, trace⟩
        pre.length o =
      ⟨ld, rd, lastId, ch, pre ++ post, trace⟩ := by
  cases o with
  | fulfilled v => rw [settle_mid]; rfl
  | rejected =>
    have hget : (pre ++ (Op.addIceCandidate c, Next.nothing) :: post).get? pre.length =
        some (.addIceCandidate c, .nothing) := by
      rw [List.get?_eq_getElem?, List.getElem?_append_right (Nat.le_refl _)]
      simp
    simp only [settle, hget, List.eraseIdx_append_of_length_le (Nat.le_refl pre.length)]
    simp

/-- C9, amended. In viewer-raw the handler calls set-remote-description for a
server offer as soon as the offer arrives, whatever else is pending and
whichever operation of an earlier offer is still awaited (its
set-remote-description, its create-answer or its set-local-description):
nothing is queued. When the peer connection fulfils the operations of the two
offers in the order they were started, the two answers are sent in the order
the offers arrived; so they are when an add-ice-candidate started before the
offers settles first, whatever its outcome. -/
theorem offers_start_on_arrival (roomId : String) (st : Session) (d1 d2 a1 a2 v : JsVal) :
    (ViewerRaw.run roomId st [.message (offerFrame d1), .message (offerFrame d2)]).trace =
      st.trace ++ [.invoke (.setRemoteDescription d1), .invoke (.setRemoteDescription d2)] ∧
    (ViewerRaw.run roomId st
      [.message (offerFrame d1), .settle st.pending.length (.fulfilled v),
       .message (offerFrame d2)]).trace =
      st.trace ++ [.invoke (.setRemoteDescription d1), .invoke .createAnswer,
        .invoke (.setRemoteDescription d2)] ∧
    (ViewerRaw.run roomId st
      [.message (offerFrame d1), .settle st.pending.length (.fulfilled v),
       .settle st.pending.length (.fulfilled a1), .message (offerFrame d2)]).trace =
      st.trace ++ [.invoke (.setRemoteDescription d1), .invoke .createAnswer,
        .invoke (.setLocalDescription a1), .invoke (.setRemoteDescription d2)] ∧
    (ViewerRaw.run roomId st
      [.message (offerFrame d1), .message (offerFrame d2),
       .settle st.pending.length (.fulfilled v), .settle st.pending.length (.fulfilled v),
       .settle st.pending.length (.fulfilled a1), .settle st.pending.length (.fulfilled a2),
       .settle st.pending.length (.fulfilled v), .settle st.pending.length (.fulfilled v)]).trace =
      st.trace ++ [.invoke (.setRemoteDescription d1), .invoke (.setRemoteDescription d2),
        .invoke .createAnswer, .invoke .createAnswer,
        .invoke (.setLocalDescription a1), .invoke (.setLocalDescription a2),
        .send (.call (st.lastId + 1) "answer" a1),
        .send (.call (st.lastId + 2) "answer" a2)] ∧
    (ViewerRaw.run roomId st
      [.message (offerFrame d1), .settle st.pending.length (.fulfilled v),
       .message (offerFrame d2),
       .settle st.pending.length (.fulfilled a1), .settle st.pending.length (.fulfilled v),
       .settle st.pending.length (.fulfilled v), .settle st.pending.length (.fulfilled a2),
       .settle st.pending.length (.fulfilled v)]).trace =
      st.trace ++ [.invoke (.setRemoteDescription d1), .invoke .createAnswer,
        .invoke (.setRemoteDescription d2), .invoke (.setLocalDescription a1),
        .invoke .createAnswer,
        .send (.call (st.lastId + 1) "answer" a1),
        .invoke (.setLocalDescription a2),
        .send (.call (st.lastId + 2) "answer" a2)] ∧
    (ViewerRaw.run roomId st
      [.message (offerFrame d1), .settle st.pending.length (.fulfilled v),
       .settle st.pending.length (.fulfilled a1), .message (offerFrame d2),
       .settle st.pending.length (.fulfilled v), .settle st.pending.length (.fulfilled v),
       .settle st.pending.length (.fulfilled a2),
       .settle st.pending.length (.fulfilled v)]).trace =
      st.trace ++ [.invoke (.setRemoteDescription d1), .invoke .createAnswer,
        .invoke (.setLocalDescription a1), .invoke (.setRemoteDescription d2),
        .send (.call (st.lastId + 1) "answer" a1),
        .invoke .createAnswer,
        .invoke (.setLocalDescription a2),
        .send (.call (st.lastId + 2) "answer" a2)] ∧
    (∀ (c : JsVal) (o : Settled), (ViewerRaw.run roomId st
      [.message (trickleFrame c), .message (offerFrame d1), .message (offerFrame d2),
       .settle st.pending.length o,
       .settle st.pending.length (.fulfilled v), .settle st.pending.length (.fulfilled v),
       .settle st.pending.length (.fulfilled a1), .settle st.pending.length (.fulfilled a2),
       .settle st.pending.length (.fulfilled v), .settle st.pending.length (.fulfilled v)]).trace =
      st.trace ++ [.invoke (.addIceCandidate c),
        .invoke (.setRemoteDescription d1), .invoke (.setRemoteDescription d2),
        .invoke .createAnswer, .invoke .createAnswer,
        .invoke (.setLocalDescription a1), .invoke (.setLocalDescription a2),
        .send (.call (st.lastId + 1) "answer" a1),
        .send (.call (st.lastId + 2) "answer" a2)]) := by
  obtain ⟨ld, rd, lastId, ch, pending, trace⟩ := st
  refine ⟨?_, ?_, ?_, ?_, ?_, ?_, ?_⟩
  · simp [ViewerRaw.run, ViewerRaw.step, ViewerRaw.raw_offer_step, invoke, settle_mid,
      engineApply, runNext, jrpcCall]
  · simp [ViewerRaw.run, ViewerRaw.step, ViewerRaw.raw_offer_step, invoke, settle_mid,
      engineApply, runNext, jrpcCall]
  · simp [ViewerRaw.run, ViewerRaw.step, ViewerRaw.raw_offer_step, invoke, settle_mid,
      engineApply, runNext, jrpcCall]
  · simp [ViewerRaw.run, ViewerRaw.step, ViewerRaw.raw_offer_step, invoke, settle_mid,
      engineApply, runNext, jrpcCall]
  · simp [ViewerRaw.run, ViewerRaw.step, ViewerRaw.raw_offer_step, invoke, settle_mid,
      engineApply, runNext, jrpcCall]
  · simp [ViewerRaw.run, ViewerRaw.step, ViewerRaw.raw_offer_step, invoke, settle_mid,
      engineApply, runNext, jrpcCall]
  · intro c o
    simp [ViewerRaw.run, ViewerRaw.step, ViewerRaw.raw_offer_step, ViewerRaw.raw_trickle_step,
      invoke, settle_inert, settle_mid, engineApply, runNext, jrpcCall]

/-- The same order when an earlier promise is pending and everything settles
oldest first: on a joined session with one `addIceCandidate` pending, two
offers are answered with the calls of id 2 and 3, in the order they arrived. -/
theorem answers_in_order_behind_candidate :
    (ViewerRaw.run "room1" Session.init
      (handshake (sdp "offer" "A") .undefined ++
        [.message (responseFrame (.num 1) (sdp "answer" "B")), .settle 0 (.fulfilled .undefined),
         .message (trickleFrame (candidate "c1")),
         .message (offerFrame (sdp "offer" "D1")), .message (offerFrame (sdp "offer" "D2")),
         .settle 0 (.fulfilled .undefined),
         .settle 0 (.fulfilled .undefined), .settle 0 (.fulfilled .undefined),
         .settle 0 (.fulfilled (sdp "answer" "A1")), .settle 0 (.fulfilled (sdp "answer" "A2")),
         .settle 0 (.fulfilled .undefined), .settle 0 (.fulfilled .undefined)])).trace =
      [.addTransceiver "video" (some "recvonly"), .addTransceiver "audio" (some "recvonly"),
       .invoke .createOffer, .invoke (.setLocalDescription (sdp "offer" "A")),
       .send (.call 1 "join" (.obj [("offer", sdp "offer" "A"), ("sid", .str "room1")])),
       .invoke (.setRemoteDescription (sdp "answer" "B")),
       .invoke (.addIceCandidate (candidate "c1")),
       .invoke (.setRemoteDescription (sdp "offer" "D1")),
       .invoke (.setRemoteDescription (sdp "offer" "D2")),
       .invoke .createAnswer, .invoke .createAnswer,
       .invoke (.setLocalDescription (sdp "answer" "A1")),
       .invoke (.setLocalDescription (sdp "answer" "A2")),
       .send (.call 2 "answer" (sdp "answer" "A1")),
       .send (.call 3 "answer" (sdp "answer" "A2"))] := by
  rfl

/-! ## The join call comes before every trickle -/

theorem after_settle (st : Session) (hst : AfterJoin st) (i : Nat) (o : Settled) :
    AfterJoin (settle st i o) := by
  obtain ⟨hj, hc⟩ := hst
  unfold settle
  cases hget : st.pending.get? i with
  | none => exact ⟨hj, hc⟩
  | some p =>
    obtain ⟨op, next⟩ := p
    cases o with
    | rejected => exact ⟨hj, hc⟩
    | fulfilled v =>
      simp only [joinSent] at hj
      cases next <;> cases op <;>
        simp [AfterJoin, joinSent, runNext, engineApply, invoke, jrpcCall, List.any_append, hj, hc]

theorem after_step_raw (roomId : String) (st : Session) (hst : AfterJoin st) (ev : Event) :
    AfterJoin (ViewerRaw.step roomId st ev) := by
  cases ev with
  | opened =>
    obtain ⟨hj, hc⟩ := hst
    simp only [joinSent] at hj
    simp [ViewerRaw.step, ViewerRaw.onopen, AfterJoin, joinSent, invoke, List.any_append, hj,
      Action.isJoinCall]
  | message f =>
    obtain ⟨hj, hc⟩ := hst
    simp only [joinSent] at hj
    simp only [ViewerRaw.step, ViewerRaw.onmessage]
    split
    · exact ⟨by simpa [joinSent] using hj, hc⟩
    · split
      · split_ifs <;>
          simp [AfterJoin, joinSent, invoke, List.any_append, hj, hc, Action.isJoinCall]
      · exact ⟨by simpa [joinSent] using hj, hc⟩
  | icecandidate c =>
    obtain ⟨hj, hc⟩ := hst
    simp only [joinSent] at hj
    simp only [ViewerRaw.step, onicecandidate]
    split_ifs <;>
      simp [AfterJoin, joinSent, jrpcNotification, List.any_append, hj, hc, Action.isJoinCall]
  | settle i o => exact after_settle st hst i o

theorem after_step_js2 (h : Host) (st : Session) (hst : AfterJoin st) (ev : Event) :
    AfterJoin (Js2.step h st ev) := by
  cases ev with
  | opened =>
    obtain ⟨hj, hc⟩ := hst
    simp only [joinSent] at hj
    simp [Js2.step, Js2.onopen, AfterJoin, joinSent, invoke, List.any_append, hj,
      Action.isJoinCall]
  | message f =>
    obtain ⟨hj, hc⟩ := hst
    simp only [joinSent] at hj
    simp only [Js2.step, Js2.onmessage]
    split
    · exact ⟨by simpa [joinSent] using hj, hc⟩
    · split
      · split
        · exact ⟨by simpa [joinSent] using hj, hc⟩
        · simp [AfterJoin, joinSent, invoke, List.any_append, hj, hc, Action.isJoinCall]
        · split
          · exact ⟨by simpa [joinSent] using hj, hc⟩
          · simp [AfterJoin, joinSent, invoke, jrpcCall, List.any_append, hj, hc,
              Action.isJoinCall]
          · split
            · exact ⟨by simpa [joinSent] using hj, hc⟩
            · simp [AfterJoin, joinSent, invoke, List.any_append, hj, hc, Action.isJoinCall]
            · exact ⟨by simpa [joinSent] using hj, hc⟩
      · exact ⟨by simpa [joinSent] using hj, hc⟩
  | icecandidate c =>
    obtain ⟨hj, hc⟩ := hst
    simp only [joinSent] at hj
    simp only [Js2.step, onicecandidate]
    split_ifs <;>
      simp [AfterJoin, joinSent, jrpcNotification, List.any_append, hj, hc, Action.isJoinCall]
  | settle i o => exact after_settle st hst i o

theorem before_settle (st : Session) (hst : BeforeJoin st) (i : Nat) (o : Settled) :
    BeforeJoin (settle st i o) ∨ AfterJoin (settle st i o) := by
  obtain ⟨hj, hl, ht, hp⟩ := hst
  unfold settle
  cases hget : st.pending.get? i with
  | none => exact Or.inl ⟨hj, hl, ht, hp⟩
  | some p =>
    obtain ⟨op, next⟩ := p
    have hmem : (op, next) ∈ st.pending := List.get?_mem hget
    have hsub : ∀ q ∈ st.pending.eraseIdx i, q ∈ st.pending :=
      fun q hq => List.mem_of_mem_eraseIdx hq
    obtain ⟨ha, hs, hjn⟩ := hp _ hmem
    have hrest : ∀ q ∈ st.pending.eraseIdx i, q.2.answering = false ∧
        (q.1.isSetLocal = true → q.2.isSendJoin = true) ∧
        (q.2.joining = true → st.candidateHandler = true) := fun q hq => hp q (hsub q hq)
    simp only [joinSent] at hj
    cases o with
    | rejected => exact Or.inl ⟨by simpa [joinSent] using hj, hl, ht, hrest⟩
    | fulfilled v =>
      cases next with
      | thenSetLocalOffer sid =>
        left
        have hc : st.candidateHandler = true := hjn rfl
        cases op <;>
          first
          | (exfalso; simpa [Op.isSetLocal, Next.isSendJoin] using hs rfl)
          | (refine ⟨?_, ?_, ?_, ?_⟩
             · simp [joinSent, runNext, engineApply, invoke, List.any_append, hj,
                 Action.isJoinCall]
             · simpa [runNext, engineApply, invoke] using hl
             · simp [runNext, engineApply, invoke, List.any_append, ht, Action.isTrickle]
             · intro q hq
               simp only [runNext, engineApply, invoke, List.mem_append,
                 List.mem_singleton] at hq ⊢
               rcases hq with hq | rfl
               · exact hrest q hq
               · simp [Next.answering, Op.isSetLocal, Next.isSendJoin, Next.joining, hc])
      | thenSendJoin sid =>
        right
        have hc : st.candidateHandler = true := hjn rfl
        cases op <;>
          simp [AfterJoin, joinSent, runNext, engineApply, jrpcCall, List.any_append,
            Action.isJoinCall, hc]
      | thenCreateAnswer => simp [Next.answering] at ha
      | thenSetLocalAnswer => simp [Next.answering] at ha
      | thenSendAnswer => simp [Next.answering] at ha
      | nothing =>
        left
        cases op <;>
          first
          | (exfalso; simpa [Op.isSetLocal, Next.isSendJoin] using hs rfl)
          | exact ⟨by simpa [joinSent, runNext, engineApply] using hj,
              by simpa [runNext, engineApply] using hl,
              by simpa [runNext, engineApply] using ht,
              by simpa [runNext, engineApply] using hrest⟩

theorem before_invoke (st : Session) (hst : BeforeJoin st) (op : Op) (next : Next)
    (h1 : next.answering = false) (h2 : op.isSetLocal = true → next.isSendJoin = true)
    (h3 : next.joining = true → st.candidateHandler = true) :
    BeforeJoin (invoke st op next) := by
  obtain ⟨hj, hl, ht, hp⟩ := hst
  simp only [joinSent] at hj
  refine ⟨?_, hl, ?_, ?_⟩
  · simp [joinSent, invoke, List.any_append, hj, Action.isJoinCall]
  · simp [invoke, List.any_append, ht, Action.isTrickle]
  · intro q hq
    simp only [invoke, List.mem_append, List.mem_singleton] at hq ⊢
    rcases hq with hq | rfl
    · exact hp q hq
    · exact ⟨h1, h2, h3⟩

theorem before_answer (st : Session) (hst : BeforeJoin st) (params : JsVal) :
    BeforeJoin (jrpcCall st "answer" params) := by
  obtain ⟨hj, hl, ht, hp⟩ := hst
  simp only [joinSent] at hj
  refine ⟨?_, hl, ?_, hp⟩
  · simp [joinSent, jrpcCall, List.any_append, hj, Action.isJoinCall]
  · simp [jrpcCall, List.any_append, ht, Action.isTrickle]

theorem before_onopen (st : Session) (hst : BeforeJoin st) (l : List Action) (sid : String)
    (hl1 : l.any Action.isJoinCall = false) (hl2 : l.any Action.isTrickle = false) :
    BeforeJoin (invoke { st with candidateHandler := true, trace := st.trace ++ l }
      .createOffer (.thenSetLocalOffer sid)) := by
  obtain ⟨hj, hl, ht, hp⟩ := hst
  simp only [joinSent] at hj
  apply before_invoke
  · refine ⟨?_, hl, ?_, ?_⟩
    · simp [joinSent, List.any_append, hj, hl1]
    · simp [List.any_append, ht, hl2]
    · intro q hq
      exact ⟨(hp q hq).1, (hp q hq).2.1, fun _ => rfl⟩
  · rfl
  · intro hx
    simp [Op.isSetLocal] at hx
  · intro _
    rfl

theorem before_step_raw (roomId : String) (st : Session) (hst : BeforeJoin st) (ev : Event)
    (hc : canReport st ev = true) (ho : canOffer st ev = true) :
    BeforeJoin (ViewerRaw.step roomId st ev) ∨ AfterJoin (ViewerRaw.step roomId st ev) := by
  cases ev with
  | opened =>
    left
    exact before_onopen st hst _ roomId rfl rfl
  | message f =>
    left
    have hno : isOfferFrame f = false := by
      have hj := hst.1
      simpa [canOffer, hj] using ho
    simp only [ViewerRaw.step, ViewerRaw.onmessage]
    split
    · exact hst
    · rename_i data
      split
      · rename_i result id method params hr hi hm hpar
        have hm2 : method.strictEqStr "offer" = false := by
          simpa [isOfferFrame, hm] using hno
        split_ifs
        · exact before_invoke st hst _ _ rfl (fun hx => by simp [Op.isSetLocal] at hx)
            (fun hx => by simp [Next.joining] at hx)
        · simp_all
        · exact before_invoke st hst _ _ rfl (fun hx => by simp [Op.isSetLocal] at hx)
            (fun hx => by simp [Next.joining] at hx)
        · exact hst
      · exact hst
  | icecandidate c =>
    exfalso
    have hl := hst.2.1
    simp [canReport, hl] at hc
  | settle i o => exact before_settle st hst i o

theorem before_step_js2 (h : Host) (st : Session) (hst : BeforeJoin st) (ev : Event)
    (hc : canReport st ev = true) :
    BeforeJoin (Js2.step h st ev) ∨ AfterJoin (Js2.step h st ev) := by
  cases ev with
  | opened =>
    left
    exact before_onopen st hst _ Js2.roomId rfl rfl
  | message f =>
    left
    simp only [Js2.step, Js2.onmessage]
    split
    · exact hst
    · split
      · split
        · exact hst
        · exact before_invoke st hst _ _ rfl (fun hx => by simp [Op.isSetLocal] at hx)
            (fun hx => by simp [Next.joining] at hx)
        · split
          · exact hst
          · exact before_answer _ (before_invoke st hst (.setRemoteDescription _) .nothing rfl
              (fun hx => by simp [Op.isSetLocal] at hx)
              (fun hx => by simp [Next.joining] at hx)) _
          · split
            · exact hst
            · exact before_invoke st hst _ _ rfl (fun hx => by simp [Op.isSetLocal] at hx)
                (fun hx => by simp [Next.joining] at hx)
            · exact hst
      · exact hst
  | icecandidate c =>
    exfalso
    have hl := hst.2.1
    simp [canReport, hl] at hc
  | settle i o => exact before_settle st hst i o

theorem before_init : BeforeJoin Session.init := by
  refine ⟨rfl, rfl, rfl, ?_⟩
  intro p hp
  simp [Session.init] at hp

theorem ordered_run_raw (roomId : String) (evs : List Event) (st : Session)
    (hst : BeforeJoin st ∨ AfterJoin st)
    (hc : reportedAfterLocal (ViewerRaw.step roomId) st evs = true)
    (ho : offersAfterJoin (ViewerRaw.step roomId) st evs = true) :
    BeforeJoin (ViewerRaw.run roomId st evs) ∨ AfterJoin (ViewerRaw.run roomId st evs) := by
  induction evs generalizing st with
  | nil => exact hst
  | cons ev evs ih =>
    simp only [reportedAfterLocal, offersAfterJoin, Bool.and_eq_true] at hc ho
    simp only [ViewerRaw.run, List.foldl_cons]
    apply ih _ _ hc.2 ho.2
    rcases hst with hb | ha
    · exact before_step_raw roomId st hb ev hc.1 ho.1
    · exact Or.inr (after_step_raw roomId st ha ev)

theorem ordered_run_js2 (h : Host) (evs : List Event) (st : Session)
    (hst : BeforeJoin st ∨ AfterJoin st)
    (hc : reportedAfterLocal (Js2.step h) st evs = true) :
    BeforeJoin (Js2.run h st evs) ∨ AfterJoin (Js2.run h st evs) := by
  induction evs generalizing st with
  | nil => exact hst
  | cons ev evs ih =>
    simp only [reportedAfterLocal, Bool.and_eq_true] at hc
    simp only [Js2.run, List.foldl_cons]
    apply ih _ _ hc.2
    rcases hst with hb | ha
    · exact before_step_js2 h st hb ev hc.1
    · exact Or.inr (after_step_js2 h st ha ev)

/-- What the order of the session gives at a local-candidate event. -/
theorem trickle_of_ordered (st : Session) (hst : BeforeJoin st ∨ AfterJoin st) (c : JsVal) :
    (st.trace.any Action.isTrickle = true → joinSent st = true) ∧
    (st.localDescription.isNullish = false →
      specPhase st ≠ .idle ∧ joinSent st = true ∧
      (if st.candidateHandler then onicecandidate st c else st).trace =
        (if !c.isNullish && joinSent st then
          st.trace ++ [.send (.notification "trickle"
            (.obj [("candidate", c), ("target", .num 0)]))]
         else st.trace)) := by
  constructor
  · intro ht
    rcases hst with hb | ha
    · rw [hb.2.2.1] at ht
      exact absurd ht (by simp)
    · exact ha.1
  · intro hl
    rcases hst with hb | ha
    · rw [hb.2.1] at hl
      exact absurd hl (by simp)
    · obtain ⟨hj, hc⟩ := ha
      refine ⟨?_, hj, ?_⟩
      · unfold specPhase
        simp only [hj]
        split_ifs <;> simp_all
      · by_cases hn : c.isNullish = true <;>
          simp [hc, hj, hn, onicecandidate, jrpcNotification]

/-- C7. Local candidate trickle: on a page whose peer connection reports
candidates only once a local description is set (it is made with no candidate
pool) and, for viewer-raw, whose server sends an `offer` only after the `join`
call, at every local-candidate event the `join` call has been sent, so the
session is past Idle, and the handler sends one notification `trickle` with
params `{candidate, target: 0}` exactly when the candidate is not `null`; the
`null` candidate is never transmitted, and a session still Idle has
transmitted no candidate. -/
theorem local_candidate_trickle (h : Host) (roomId : String) (evs : List Event) (c : JsVal) :
    (reportedAfterLocal (ViewerRaw.step roomId) Session.init evs = true →
      offersAfterJoin (ViewerRaw.step roomId) Session.init evs = true →
      ((ViewerRaw.run roomId Session.init evs).trace.any Action.isTrickle = true →
        joinSent (ViewerRaw.run roomId Session.init evs) = true) ∧
      ((ViewerRaw.run roomId Session.init evs).localDescription.isNullish = false →
        specPhase (ViewerRaw.run roomId Session.init evs) ≠ .idle ∧
        joinSent (ViewerRaw.run roomId Session.init evs) = true ∧
        (ViewerRaw.step roomId (ViewerRaw.run roomId Session.init evs) (.icecandidate c)).trace =
          (if !c.isNullish && joinSent (ViewerRaw.run roomId Session.init evs) then
            (ViewerRaw.run roomId Session.init evs).trace ++
              [.send (.notification "trickle" (.obj [("candidate", c), ("target", .num 0)]))]
           else (ViewerRaw.run roomId Session.init evs).trace))) ∧
    (reportedAfterLocal (Js2.step h) Session.init evs = true →
      ((Js2.run h Session.init evs).trace.any Action.isTrickle = true →
        joinSent (Js2.run h Session.init evs) = true) ∧
      ((Js2.run h Session.init evs).localDescription.isNullish = false →
        specPhase (Js2.run h Session.init evs) ≠ .idle ∧
        joinSent (Js2.run h Session.init evs) = true ∧
        (Js2.step h (Js2.run h Session.init evs) (.icecandidate c)).trace =
          (if !c.isNullish && joinSent (Js2.run h Session.init evs) then
            (Js2.run h Session.init evs).trace ++
              [.send (.notification "trickle" (.obj [("candidate", c), ("target", .num 0)]))]
           else (Js2.run h Session.init evs).trace))) := by
  constructor
  · intro hc ho
    exact trickle_of_ordered _ (ordered_run_raw roomId evs _ (Or.inl before_init) hc ho) c
  · intro hc
    exact trickle_of_ordered _ (ordered_run_js2 h evs _ (Or.inl before_init) hc) c

/-- C7, witness: after the handshake in room `room1` and a first candidate, a
second candidate is reported. -/
theorem local_candidate_trickle_witness :
    reportedAfterLocal (ViewerRaw.step "room1") Session.init
      (handshake (sdp "offer" "A") .undefined ++ [.icecandidate (candidate "c1")]) = true ∧
    offersAfterJoin (ViewerRaw.step "room1") Session.init
      (handshake (sdp "offer" "A") .undefined ++ [.icecandidate (candidate "c1")]) = true ∧
    (ViewerRaw.run "room1" Session.init
      (handshake (sdp "offer" "A") .undefined ++
        [.icecandidate (candidate "c1")])).localDescription.isNullish = false ∧
    joinSent (ViewerRaw.run "room1" Session.init
      (handshake (sdp "offer" "A") .undefined ++ [.icecandidate (candidate "c1")])) = true :=
  ⟨rfl, rfl, rfl,
   (((local_candidate_trickle exampleHost "room1"
      (handshake (sdp "offer" "A") JsVal.undefined ++ [Event.icecandidate (candidate "c1")])
      (candidate "c2")).1 rfl rfl).2 rfl).2.1⟩

namespace ViewerRaw

/-! ## The stream registry -/

theorem mapGet_mapSet (k k' : String) (c : Container) (m : List (String × Container)) :
    mapGet k (mapSet k' c m) = if k = k' then some c else mapGet k m := by
  induction m with
  | nil => by_cases h : k = k' <;> simp [mapSet, mapGet, h, eq_comm]
  | cons e m ih =>
    obtain ⟨k1, c1⟩ := e
    by_cases h1 : k1 = k' <;> by_cases h : k = k' <;> by_cases h2 : k1 = k <;>
      simp_all [mapSet, mapGet]

theorem mapGet_mapDelete (k k' : String) (m : List (String × Container)) :
    mapGet k (mapDelete k' m) = if k = k' then none else mapGet k m := by
  induction m with
  | nil => simp [mapDelete, mapGet]
  | cons e m ih =>
    obtain ⟨k1, c1⟩ := e
    simp only [mapDelete] at ih
    by_cases h1 : k1 = k' <;> by_cases h : k = k' <;> by_cases h2 : k1 = k <;>
      simp_all [mapDelete, mapGet, List.filter_cons]

theorem ontrack_tracks (st : Registry) (o : Option String) (kind : String) :
    (ontrack st o kind).tracks = st.tracks := by
  cases o with
  | none => rfl
  | some s =>
    unfold ontrack
    cases hget : mapGet s st.streamElements <;> simp only [hget, Option.getD_some, Option.getD_none, mapGet_mapSet, if_true] <;> split_ifs <;> rfl

theorem ontrack_get_same (st : Registry) (s kind : String) :
    mapGet s (ontrack st (some s) kind).streamElements =
      some (attach ((mapGet s st.streamElements).getD ⟨0, 0⟩) kind) := by
  unfold ontrack attach
  cases hget : mapGet s st.streamElements <;> simp only [hget, Option.getD_some, Option.getD_none, mapGet_mapSet, if_true] <;> split_ifs <;>
    simp_all [mapGet_mapSet]

theorem ontrack_get_other (st : Registry) (s s' kind : String) (hne : s' ≠ s) :
    mapGet s' (ontrack st (some s) kind).streamElements = mapGet s' st.streamElements := by
  unfold ontrack
  cases hget : mapGet s st.streamElements <;> simp only [hget, Option.getD_some, Option.getD_none, mapGet_mapSet, if_true] <;> split_ifs <;>
    simp_all [mapGet_mapSet]

theorem ontrack_remotes (st : Registry) (s kind : String) :
    (ontrack st (some s) kind).remotes =
      if (mapGet s st.streamElements).isSome then st.remotes else st.remotes ++ [s] := by
  unfold ontrack
  cases hget : mapGet s st.streamElements <;> simp only [hget, Option.getD_some, Option.getD_none, mapGet_mapSet, if_true] <;> split_ifs <;> simp_all

theorem ontrack_created (st : Registry) (s s' kind : String) :
    created (ontrack st (some s) kind) s' =
      created st s' + (if (mapGet s st.streamElements).isSome then 0
        else if s = s' then 1 else 0) := by
  unfold ontrack created
  cases hget : mapGet s st.streamElements <;> simp only [hget, Option.getD_some, Option.getD_none, mapGet_mapSet, if_true] <;> split_ifs <;>
    simp_all [List.count_append, List.count_cons]

theorem ontrack_destroyed (st : Registry) (o : Option String) (s' kind : String) :
    destroyed (ontrack st o kind) s' = destroyed st s' := by
  cases o with
  | none => rfl
  | some s =>
    unfold ontrack destroyed
    cases hget : mapGet s st.streamElements <;> simp only [hget, Option.getD_some, Option.getD_none, mapGet_mapSet, if_true] <;> split_ifs <;>
      simp_all [List.count_append, List.count_cons]

theorem ontrack_watched (st : Registry) (s s' kind : String) :
    s' ∈ (ontrack st (some s) kind).watched ↔ s' = s ∨ s' ∈ st.watched := by
  unfold ontrack
  cases hget : mapGet s st.streamElements <;> simp only [hget, Option.getD_some, Option.getD_none, mapGet_mapSet, if_true] <;> split_ifs <;>
    simp_all <;> aesop


theorem onremovetrack_tracks (st : Registry) (s : String) :
    (onremovetrack st s).tracks = st.tracks := by
  unfold onremovetrack
  cases hget : mapGet s st.streamElements <;> simp only [hget] <;> split_ifs <;> rfl

theorem onremovetrack_watched (st : Registry) (s : String) :
    (onremovetrack st s).watched = st.watched := by
  unfold onremovetrack
  cases hget : mapGet s st.streamElements <;> simp only [hget] <;> split_ifs <;> rfl

theorem onremovetrack_get (st : Registry) (s s' : String) :
    mapGet s' (onremovetrack st s).streamElements =
      if getTracks st s = [] ∧ s' = s then none else mapGet s' st.streamElements := by
  unfold onremovetrack
  cases hget : mapGet s st.streamElements <;> simp only [hget] <;> split_ifs <;>
    simp_all [mapGet_mapDelete]

theorem onremovetrack_remotes (st : Registry) (s s' : String) :
    (onremovetrack st s).remotes.count s' =
      if getTracks st s = [] ∧ s' = s ∧ (mapGet s st.streamElements).isSome then
        st.remotes.count s' - 1
      else st.remotes.count s' := by
  unfold onremovetrack
  cases hget : mapGet s st.streamElements <;> simp only [hget] <;> split_ifs <;>
    simp_all [List.count_erase_self, List.count_erase_of_ne, List.count_eq_zero_of_not_mem]

theorem onremovetrack_created (st : Registry) (s s' : String) :
    created (onremovetrack st s) s' = created st s' := by
  unfold onremovetrack created
  cases hget : mapGet s st.streamElements <;> simp only [hget] <;> split_ifs <;>
    simp_all [List.count_append, List.count_cons]

theorem onremovetrack_destroyed (st : Registry) (s s' : String) :
    destroyed (onremovetrack st s) s' =
      destroyed st s' +
        (if getTracks st s = [] ∧ s' = s ∧ (mapGet s st.streamElements).isSome ∧ s ∈ st.remotes
          then 1 else 0) := by
  unfold onremovetrack destroyed
  cases hget : mapGet s st.streamElements <;> simp only [hget] <;> split_ifs <;>
    simp_all [List.count_append, List.count_cons]


theorem getTracks_congr (a b : Registry) (s : String) (h : a.tracks = b.tracks) :
    getTracks a s = getTracks b s := by
  unfold getTracks
  rw [h]

theorem attach_single (c : Container) (kind : String) (hc : c.videos ≤ 1 ∧ c.audios ≤ 1) :
    (attach c kind).videos ≤ 1 ∧ (attach c kind).audios ≤ 1 := by
  unfold attach
  split_ifs <;> simp_all

theorem inv_init : Inv Registry.init where
  entry_iff := by intro s; simp [Registry.init, mapGet, getTracks]
  page := by intro s; simp [Registry.init, mapGet]
  watching := by intro s; simp [Registry.init, getTracks]
  balance := by intro s; simp [Registry.init, created, destroyed]
  single := by intro s c; simp [Registry.init, mapGet]

theorem inv_ontrack (st : Registry) (hinv : Inv st) (tr : List (String × String))
    (s kind : String) (hs : getTracks { st with tracks := tr } s ≠ [])
    (ho : ∀ s', s' ≠ s → getTracks { st with tracks := tr } s' = getTracks st s') :
    Inv (ontrack { st with tracks := tr } (some s) kind) where
  entry_iff := by
    intro s'
    rw [getTracks_congr _ { st with tracks := tr } s' (ontrack_tracks _ _ kind)]
    by_cases hne : s' = s
    · subst hne
      simp [ontrack_get_same, hs]
    · rw [ontrack_get_other _ s s' kind hne, ho s' hne]
      exact hinv.entry_iff s'
  page := by
    intro s'
    have hp := hinv.page s'
    have hps := hinv.page s
    rw [ontrack_remotes]
    by_cases hne : s' = s
    · subst hne
      rw [ontrack_get_same]
      cases hget : mapGet s' st.streamElements <;> simp_all [List.count_append]
    · rw [ontrack_get_other _ s s' kind hne]
      have hne2 : ¬ s = s' := fun e => hne e.symm
      cases hget : mapGet s st.streamElements <;>
        simp_all [List.count_append, List.count_cons]
  watching := by
    intro s' hx
    rw [ontrack_watched]
    by_cases hne : s' = s
    · exact Or.inl hne
    · right
      apply hinv.watching
      rw [getTracks_congr _ { st with tracks := tr } s' (ontrack_tracks _ _ kind), ho s' hne] at hx
      exact hx
  balance := by
    intro s'
    have hb := hinv.balance s'
    have hps := hinv.page s
    rw [ontrack_created, ontrack_destroyed, ontrack_remotes]
    simp only [created, destroyed] at hb ⊢
    cases hget : mapGet s st.streamElements
    · by_cases hne : s = s' <;> simp_all [List.count_append, List.count_cons]
    · simp_all
  single := by
    intro s' c hc
    by_cases hne : s' = s
    · subst hne
      rw [ontrack_get_same] at hc
      cases hget : mapGet s' st.streamElements with
      | none =>
        simp [hget] at hc
        rw [← hc]
        exact attach_single _ _ (by simp)
      | some c0 =>
        simp [hget] at hc
        rw [← hc]
        exact attach_single _ _ (hinv.single s' c0 hget)
    · rw [ontrack_get_other _ s s' kind hne] at hc
      exact hinv.single s' c hc

theorem inv_added (st : Registry) (hinv : Inv st) (o : Option String) (t kind : String) :
    Inv (trackStep st (.added o t kind)) := by
  cases o with
  | none => exact hinv
  | some s =>
    simp only [trackStep]
    by_cases hmem : (s, t) ∈ st.tracks
    · simp only [hmem, if_true]
      have e : st = { st with tracks := st.tracks } := rfl
      rw [e]
      apply inv_ontrack st hinv
      · simp only [getTracks]
        intro hnil
        have : (s, t) ∈ st.tracks.filter (fun e => e.1 = s) := by simp [hmem]
        rw [hnil] at this
        simp at this
      · intro s' _
        rfl
    · simp only [hmem, if_false]
      apply inv_ontrack st hinv
      · simp [getTracks, List.filter_append]
      · intro s' hne
        have hne2 : ¬ s = s' := fun e => hne e.symm
        simp [getTracks, List.filter_append, hne2]

theorem inv_onremovetrack (st : Registry) (hinv : Inv st) (tr : List (String × String))
    (s : String)
    (ho : ∀ s', s' ≠ s → getTracks { st with tracks := tr } s' = getTracks st s')
    (hsub : ∀ s', getTracks { st with tracks := tr } s' ≠ [] → getTracks st s' ≠ []) :
    Inv (onremovetrack { st with tracks := tr } s) where
  entry_iff := by
    intro s'
    rw [getTracks_congr _ { st with tracks := tr } s' (onremovetrack_tracks _ _),
      onremovetrack_get]
    by_cases hne : s' = s
    · subst hne
      by_cases hnil : getTracks { st with tracks := tr } s' = []
      · simp [hnil]
      · simp only [hnil, false_and, if_false]
        exact ⟨fun _ => hnil, fun _ => (hinv.entry_iff s').mpr (hsub s' hnil)⟩
    · simp only [hne, and_false, if_false]
      rw [ho s' hne]
      exact hinv.entry_iff s'
  page := by
    intro s'
    have hp := hinv.page s'
    rw [onremovetrack_remotes, onremovetrack_get]
    by_cases hne : s' = s
    · subst hne
      by_cases hnil : getTracks { st with tracks := tr } s' = []
      · cases hget : mapGet s' st.streamElements <;> simp_all
      · simp_all
    · simp_all
  watching := by
    intro s' hx
    rw [onremovetrack_watched]
    rw [getTracks_congr _ { st with tracks := tr } s' (onremovetrack_tracks _ _)] at hx
    exact hinv.watching s' (hsub s' hx)
  balance := by
    intro s'
    have hb := hinv.balance s'
    have hp := hinv.page s'
    rw [onremovetrack_created, onremovetrack_destroyed, onremovetrack_remotes]
    simp only [created, destroyed] at hb ⊢
    by_cases hne : s' = s
    · subst hne
      by_cases hnil : getTracks { st with tracks := tr } s' = []
      · cases hget : mapGet s' st.streamElements
        · simp_all
        · have hmem : s' ∈ st.remotes := by
            apply List.count_pos_iff.mp
            simp_all
          simp_all
      · simp_all
    · simp_all
  single := by
    intro s' c hc
    rw [onremovetrack_get] at hc
    split_ifs at hc
    exact hinv.single s' c hc

theorem inv_removed (st : Registry) (hinv : Inv st) (s t : String) :
    Inv (trackStep st (.removed s t)) := by
  have ho : ∀ s', s' ≠ s →
      getTracks { st with tracks := st.tracks.filter (fun e => e ≠ (s, t)) } s' =
        getTracks st s' := by
    intro s' hne
    simp only [getTracks, List.filter_filter]
    apply List.filter_congr
    intro e _
    by_cases h1 : e.1 = s' <;> simp [h1]
    intro h2
    rw [h2] at h1
    exact hne h1.symm
  have hsub : ∀ s', getTracks { st with tracks := st.tracks.filter (fun e => e ≠ (s, t)) } s' ≠ [] →
      getTracks st s' ≠ [] := by
    intro s' hx hnil
    apply hx
    simp only [getTracks, List.filter_filter] at hnil ⊢
    rw [List.filter_eq_nil_iff] at hnil ⊢
    intro a ha
    have := hnil a ha
    simp_all
  simp only [trackStep]
  by_cases hw : s ∈ st.watched
  · simp only [hw, if_true]
    exact inv_onremovetrack st hinv _ s ho hsub
  · simp only [hw, if_false]
    have hnil : getTracks st s = [] := by
      by_contra hx
      exact hw (hinv.watching s hx)
    have hnil1 : getTracks { st with tracks := st.tracks.filter (fun e => e ≠ (s, t)) } s = [] := by
      by_contra hx
      exact hsub s hx hnil
    refine ⟨?_, hinv.page, ?_, hinv.balance, hinv.single⟩
    · intro s'
      by_cases hne : s' = s
      · subst hne
        have := hinv.entry_iff s'
        simp_all
      · rw [ho s' hne]
        exact hinv.entry_iff s'
    · intro s' hx
      exact hinv.watching s' (hsub s' hx)

theorem inv_step (st : Registry) (hinv : Inv st) (ev : TrackEvent) : Inv (trackStep st ev) := by
  cases ev with
  | added o t kind => exact inv_added st hinv o t kind
  | removed s t => exact inv_removed st hinv s t

theorem inv_run (evs : List TrackEvent) (st : Registry) (hinv : Inv st) :
    Inv (trackRun st evs) := by
  induction evs generalizing st with
  | nil => exact hinv
  | cons ev evs ih => exact ih (trackStep st ev) (inv_step st hinv ev)

/-- The page loses a container of `s` only in a step after which `s` holds no track. -/
theorem destroyed_only_without_tracks (st : Registry) (ev : TrackEvent) (s : String)
    (hd : destroyed (trackStep st ev) s ≠ destroyed st s) : getTracks (trackStep st ev) s = [] := by
  cases ev with
  | added o t kind =>
    exfalso
    apply hd
    simp only [trackStep]
    rw [ontrack_destroyed]
    cases o with
    | none => rfl
    | some s0 => simp only []; split_ifs <;> rfl
  | removed s0 t =>
    simp only [trackStep] at hd ⊢
    by_cases hw : s0 ∈ st.watched
    · simp only [hw, if_true] at hd ⊢
      rw [onremovetrack_destroyed] at hd
      rw [getTracks_congr _ _ s (onremovetrack_tracks _ _)]
      by_contra hx
      apply hd
      rw [if_neg (fun h => hx (by rw [h.2.1]; exact h.1))]
      rfl
    · simp only [hw, if_false] at hd
      exact absurd rfl hd


theorem ontrack_present (st : Registry) (s k : String) (c : Container)
    (hget : mapGet s st.streamElements = some c)
    (hc : (k = "video" → c.videos ≠ 0) ∧ (k = "audio" → c.audios ≠ 0)) :
    (ontrack st (some s) k).streamElements = st.streamElements ∧
    (ontrack st (some s) k).remotes = st.remotes ∧
    (ontrack st (some s) k).dom = st.dom := by
  unfold ontrack
  simp only [hget, Option.getD_some]
  split_ifs <;> simp_all

theorem ontrack_absent (st : Registry) (s k : String)
    (hget : mapGet s st.streamElements = none) (hk : k = "audio" ∨ k = "video") :
    (ontrack st (some s) k).dom = st.dom ++ [.appendContainer s, .appendMedia s k] := by
  unfold ontrack
  rcases hk with hk | hk <;> subst hk <;> simp [hget, mapGet_mapSet]

theorem attach_video (c : Container) (h : c.videos ≤ 1) : (attach c "video").videos = 1 := by
  unfold attach
  by_cases h0 : c.videos = 0
  · simp [h0]
  · simp [h0]
    omega

theorem attach_audio (c : Container) (h : c.audios ≤ 1) : (attach c "audio").audios = 1 := by
  unfold attach
  by_cases h0 : c.audios = 0
  · simp [h0]
  · simp [h0]
    omega

theorem mediaCount_ontrack (st : Registry) (s k : String)
    (hsingle : ∀ c, mapGet s st.streamElements = some c → c.videos ≤ 1 ∧ c.audios ≤ 1)
    (hk : k = "audio" ∨ k = "video") : mediaCount (ontrack st (some s) k) s k = 1 := by
  have hs : ((mapGet s st.streamElements).getD ⟨0, 0⟩).videos ≤ 1 ∧
      ((mapGet s st.streamElements).getD ⟨0, 0⟩).audios ≤ 1 := by
    cases hget : mapGet s st.streamElements with
    | none => simp
    | some c0 => simpa using hsingle c0 hget
  unfold mediaCount
  rw [ontrack_get_same]
  rcases hk with hk | hk <;> subst hk
  · simp [attach_audio _ hs.2]
  · simp [attach_video _ hs.1]

theorem added_again (st : Registry) (s t k : String) (hcount : mediaCount st s k = 1) :
    (trackStep st (.added (some s) t k)).streamElements = st.streamElements ∧
    (trackStep st (.added (some s) t k)).remotes = st.remotes ∧
    (trackStep st (.added (some s) t k)).dom = st.dom := by
  unfold mediaCount at hcount
  cases hget : mapGet s st.streamElements with
  | none => simp [hget] at hcount
  | some c =>
    simp only [hget] at hcount
    have hc : (k = "video" → c.videos ≠ 0) ∧ (k = "audio" → c.audios ≠ 0) := by
      constructor
      · intro hv
        subst hv
        simp at hcount
        omega
      · intro ha
        subst ha
        simp at hcount
        omega
    simp only [trackStep]
    split_ifs
    · exact ontrack_present st s k c hget hc
    · exact ontrack_present { st with tracks := st.tracks ++ [(s, t)] } s k c hget hc

theorem added_fresh (st : Registry) (s t k : String)
    (hget : mapGet s st.streamElements = none) (hk : k = "audio" ∨ k = "video") :
    (trackStep st (.added (some s) t k)).dom =
      st.dom ++ [.appendContainer s, .appendMedia s k] := by
  simp only [trackStep]
  split_ifs
  · exact ontrack_absent st s k hget hk
  · exact ontrack_absent { st with tracks := st.tracks ++ [(s, t)] } s k hget hk

/-- C5. Stream lifecycle symmetry: after every sequence of track events handled
by the viewer-raw registry, `streamElements` has an entry for a stream id, and
the page a container, exactly when the stream holds a track; once the stream
holds none, as many containers have been made for it as removed; and a step
removes a container only when the stream is left without a track. -/
theorem stream_lifecycle (evs : List TrackEvent) (s : String) :
    ((mapGet s (trackRun Registry.init evs).streamElements).isSome ↔
      getTracks (trackRun Registry.init evs) s ≠ []) ∧
    (s ∈ (trackRun Registry.init evs).remotes ↔
      getTracks (trackRun Registry.init evs) s ≠ []) ∧
    (getTracks (trackRun Registry.init evs) s = [] →
      created (trackRun Registry.init evs) s = destroyed (trackRun Registry.init evs) s) ∧
    (∀ ev : TrackEvent,
      destroyed (trackStep (trackRun Registry.init evs) ev) s ≠
          destroyed (trackRun Registry.init evs) s →
        getTracks (trackStep (trackRun Registry.init evs) ev) s = []) := by
  have hinv := inv_run evs Registry.init inv_init
  have he := hinv.entry_iff s
  have hp := hinv.page s
  have hb := hinv.balance s
  have hmem : s ∈ (trackRun Registry.init evs).remotes ↔
      getTracks (trackRun Registry.init evs) s ≠ [] := by
    rw [← he, ← List.count_pos_iff, hp]
    by_cases hx : (mapGet s (trackRun Registry.init evs).streamElements).isSome = true <;>
      simp [hx]
  refine ⟨he, hmem, ?_, ?_⟩
  · intro hnil
    have hx : ¬ (mapGet s (trackRun Registry.init evs).streamElements).isSome = true := by
      rw [he]
      simp [hnil]
    rw [hb, hp]
    simp [hx]
  · intro ev hd
    exact destroyed_only_without_tracks _ ev s hd

/-- C6. Idempotent attach: after any sequence of track events, a track event
for stream `s` and kind `k` (audio or video) leaves exactly one element of
kind `k` in the container of `s` and exactly one container for `s` on the
page; a second track event for the same stream and kind leaves the registry and
the page unchanged; and when the stream had no container, the two events
together make exactly one container and one element. -/
theorem idempotent_attach (evs : List TrackEvent) (s t1 t2 k : String)
    (hk : k = "audio" ∨ k = "video") :
    mediaCount (trackStep (trackRun Registry.init evs) (.added (some s) t1 k)) s k = 1 ∧
    (trackStep (trackRun Registry.init evs) (.added (some s) t1 k)).remotes.count s = 1 ∧
    (mapGet s (trackStep (trackRun Registry.init evs)
      (.added (some s) t1 k)).streamElements).isSome = true ∧
    (trackStep (trackStep (trackRun Registry.init evs) (.added (some s) t1 k))
        (.added (some s) t2 k)).streamElements =
      (trackStep (trackRun Registry.init evs) (.added (some s) t1 k)).streamElements ∧
    (trackStep (trackStep (trackRun Registry.init evs) (.added (some s) t1 k))
        (.added (some s) t2 k)).remotes =
      (trackStep (trackRun Registry.init evs) (.added (some s) t1 k)).remotes ∧
    (trackStep (trackStep (trackRun Registry.init evs) (.added (some s) t1 k))
        (.added (some s) t2 k)).dom =
      (trackStep (trackRun Registry.init evs) (.added (some s) t1 k)).dom ∧
    (mapGet s (trackRun Registry.init evs).streamElements = none →
      (trackStep (trackStep (trackRun Registry.init evs) (.added (some s) t1 k))
          (.added (some s) t2 k)).dom =
        (trackRun Registry.init evs).dom ++ [.appendContainer s, .appendMedia s k]) := by
  have hinv0 := inv_run evs Registry.init inv_init
  generalize trackRun Registry.init evs = st0 at hinv0 ⊢
  have hinv1 := inv_added st0 hinv0 (some s) t1 k
  have hcount : mediaCount (trackStep st0 (.added (some s) t1 k)) s k = 1 := by
    simp only [trackStep]
    split_ifs
    · exact mediaCount_ontrack st0 s k (hinv0.single s) hk
    · exact mediaCount_ontrack _ s k (hinv0.single s) hk
  have hsome : (mapGet s (trackStep st0 (.added (some s) t1 k)).streamElements).isSome = true := by
    rw [hinv1.entry_iff s]
    intro hnil
    have hmc : mediaCount (trackStep st0 (.added (some s) t1 k)) s k = 0 := by
      unfold mediaCount
      have : mapGet s (trackStep st0 (.added (some s) t1 k)).streamElements = none := by
        have := (hinv1.entry_iff s).not.mpr (by simpa using hnil)
        simpa using this
      rw [this]
    omega
  have hpage : (trackStep st0 (.added (some s) t1 k)).remotes.count s = 1 := by
    rw [hinv1.page s, hsome]
    rfl
  have hagain := added_again (trackStep st0 (.added (some s) t1 k)) s t2 k hcount
  refine ⟨hcount, hpage, hsome, hagain.1, hagain.2.1, hagain.2.2, ?_⟩
  intro hget
  rw [hagain.2.2]
  exact added_fresh st0 s t1 k hget hk

/-- C6, witness: two video tracks of stream `s1` on a fresh page. -/
theorem idempotent_attach_witness :
    mediaCount (trackStep (trackRun Registry.init []) (.added (some "s1") "t1" "video"))
      "s1" "video" = 1 ∧
    (trackStep (trackStep (trackRun Registry.init []) (.added (some "s1") "t1" "video"))
        (.added (some "s1") "t2" "video")).dom =
      (trackStep (trackRun Registry.init []) (.added (some "s1") "t1" "video")).dom :=
  ⟨(idempotent_attach [] "s1" "t1" "t2" "video" (Or.inr rfl)).1,
   (idempotent_attach [] "s1" "t1" "t2" "video" (Or.inr rfl)).2.2.2.2.2.1⟩

/-- C5, witness: two tracks of stream `s1` arrive and leave; the one container
made has been removed. -/
theorem stream_lifecycle_witness :
    getTracks (trackRun Registry.init
      [.added (some "s1") "t1" "video", .added (some "s1") "t2" "audio",
       .removed "s1" "t1", .removed "s1" "t2"]) "s1" = [] ∧
    created (trackRun Registry.init
      [.added (some "s1") "t1" "video", .added (some "s1") "t2" "audio",
       .removed "s1" "t1", .removed "s1" "t2"]) "s1" =
    destroyed (trackRun Registry.init
      [.added (some "s1") "t1" "video", .added (some "s1") "t2" "audio",
       .removed "s1" "t1", .removed "s1" "t2"]) "s1" :=
  ⟨by decide,
   (stream_lifecycle [.added (some "s1") "t1" "video", .added (some "s1") "t2" "audio",
       .removed "s1" "t1", .removed "s1" "t2"] "s1").2.2.1 (by decide)⟩

end ViewerRaw


namespace Viewer

/-! ## The token helper -/

/-- The replacement the two global `replace` calls make together. -/
theorem replaceAll_twice (l : List Char) :
    replaceAll '/' '_' (replaceAll '+' '-' l) =
      l.map (fun c => if c = '+' then '-' else if c = '/' then '_' else c) := by
  simp only [replaceAll, List.map_map]
  apply List.map_congr_left
  intro c _
  by_cases h1 : c = '+'
  · subst h1
    simp
  · simp [h1]

theorem digit_mem (i : Nat) : digit i ∈ alphabet := by
  unfold digit
  by_cases h : i < alphabet.length
  · rw [List.getD_eq_getElem _ _ h]
    exact List.getElem_mem h
  · rw [List.getD_eq_default _ _ (Nat.le_of_not_lt h)]
    decide

theorem alphabet_urlSafe :
    ∀ c ∈ alphabet, urlSafe (if c = '+' then '-' else if c = '/' then '_' else c) = true := by
  decide

theorem urlSafe_ne (c : Char) (h : urlSafe c = true) : c ≠ '=' ∧ c ≠ '.' := by
  constructor <;> (intro e; subst e; revert h; decide)

/-- Standard base64 is digits followed by at most two `=`. -/
theorem encode_shape (bytes : List Nat) :
    ∃ body n, encode bytes = body ++ List.replicate n '=' ∧ ∀ c ∈ body, c ∈ alphabet := by
  induction bytes using encode.induct with
  | case1 => exact ⟨[], 0, rfl, by simp⟩
  | case2 a =>
    refine ⟨[digit (a / 4), digit (a % 4 * 16)], 2, rfl, ?_⟩
    intro c hc
    simp at hc
    rcases hc with rfl | rfl <;> exact digit_mem _
  | case3 a b =>
    refine ⟨[digit (a / 4), digit (a % 4 * 16 + b / 16), digit (b % 16 * 4)], 1, rfl, ?_⟩
    intro c hc
    simp at hc
    rcases hc with rfl | rfl | rfl <;> exact digit_mem _
  | case4 a b c rest ih =>
    obtain ⟨body, n, he, hb⟩ := ih
    refine ⟨digit (a / 4) :: digit (a % 4 * 16 + b / 16) :: digit (b % 16 * 4 + c / 64) ::
      digit (c % 64) :: body, n, ?_, ?_⟩
    · simp [encode, he]
    · intro x hx
      simp at hx
      rcases hx with rfl | rfl | rfl | rfl | hx
      · exact digit_mem _
      · exact digit_mem _
      · exact digit_mem _
      · exact digit_mem _
      · exact hb x hx

theorem replaceTrailingEq_append (body : List Char) (n : Nat) (hb : ∀ c ∈ body, c ≠ '=') :
    replaceTrailingEq (body ++ List.replicate n '=') = body := by
  induction body with
  | nil =>
    cases n with
    | zero => rfl
    | succ n => simp [List.replicate_succ, replaceTrailingEq]
  | cons c cs ih =>
    have hc : c ≠ '=' := hb c (by simp)
    have e := ih (fun x hx => hb x (by simp [hx]))
    simp only [List.cons_append, replaceTrailingEq, hc, false_and, if_false]
    exact congrArg (List.cons c) e

theorem rdropWhile_append (body : List Char) (n : Nat) (hb : ∀ c ∈ body, c ≠ '=') :
    (body ++ List.replicate n '=').rdropWhile (fun c => c == '=') = body := by
  induction n with
  | zero =>
    simp only [List.replicate_zero, List.append_nil]
    rw [List.rdropWhile_eq_self_iff]
    intro hl
    simpa using hb _ (List.getLast_mem hl)
  | succ n ih =>
    rw [List.replicate_succ', ← List.append_assoc, List.rdropWhile_concat_pos _ _ _ (by simp)]
    exact ih

theorem b64_latin1 (s : List Char) (hs : ∀ c ∈ s, c.toNat ≤ 255) :
    b64 s = .ok (specBase64url s) ∧ ∀ c ∈ specBase64url s, urlSafe c = true := by
  obtain ⟨body, n, he, hb⟩ := encode_shape (s.map Char.toNat)
  have hall : s.all (fun c => decide (c.toNat ≤ 255)) = true := by
    simpa [List.all_eq_true] using hs
  have hsafe : ∀ c ∈ body.map (fun c => if c = '+' then '-' else if c = '/' then '_' else c),
      urlSafe c = true := by
    intro c hc
    obtain ⟨x, hx, rfl⟩ := List.mem_map.mp hc
    exact alphabet_urlSafe x (hb x hx)
  have hmap : (encode (s.map Char.toNat)).map
        (fun c => if c = '+' then '-' else if c = '/' then '_' else c) =
      body.map (fun c => if c = '+' then '-' else if c = '/' then '_' else c) ++
        List.replicate n '=' := by
    rw [he, List.map_append, List.map_replicate]
    rfl
  have hspec : specBase64url s =
      body.map (fun c => if c = '+' then '-' else if c = '/' then '_' else c) := by
    unfold specBase64url
    rw [hmap]
    exact rdropWhile_append _ n (fun c hc => (urlSafe_ne c (hsafe c hc)).1)
  constructor
  · unfold b64 btoa
    rw [if_pos hall]
    simp only [Except.map]
    rw [replaceAll_twice, hmap, hspec]
    exact congrArg Except.ok
      (replaceTrailingEq_append _ n (fun c hc => (urlSafe_ne c (hsafe c hc)).1))
  · rw [hspec]
    exact hsafe

theorem b64_ok (s x : List Char) (h : b64 s = .ok x) : ∀ c ∈ s, c.toNat ≤ 255 := by
  unfold b64 btoa at h
  by_cases hall : s.all (fun c => decide (c.toNat ≤ 255)) = true
  · simpa [List.all_eq_true] using hall
  · rw [if_neg hall] at h
    simp [Except.map] at h

theorem byte_latin1 (sig : List Nat) :
    ∀ c ∈ sig.map (fun b => Char.ofNat (b % 256)), c.toNat ≤ 255 := by
  intro c hc
  obtain ⟨b, _, rfl⟩ := List.mem_map.mp hc
  have hb : b % 256 < 256 := Nat.mod_lt _ (by decide)
  have hv : (b % 256).isValidChar := Or.inl (by omega)
  have e : (Char.ofNat (b % 256)).toNat = b % 256 := by
    simp only [Char.ofNat, hv, dif_pos, Char.ofNatAux, Char.toNat]
    rw [UInt32.toNat]
    simp
  omega

theorem headerJson_latin1 : ∀ c ∈ headerJson, c.toNat ≤ 255 := by decide

theorem segments_three (a b c : List Char) (ha : '.' ∉ a) (hb : '.' ∉ b) (hc : '.' ∉ c) :
    segments (a ++ '.' :: b ++ '.' :: c) = [a, b, c] := by
  have h : (['.'].intercalate [a, b, c]).splitOn '.' = [a, b, c] :=
    List.splitOn_intercalate [a, b, c] '.'
    (by
      intro l hl
      simp at hl
      rcases hl with rfl | rfl | rfl <;> assumption)
    (by simp)
  unfold segments
  rw [← h]
  simp [List.intercalate]


theorem makeToken_latin1 (payloadJson : List Char) (sign : List Char → List Nat)
    (hp : ∀ c ∈ payloadJson, c.toNat ≤ 255) :
    makeToken payloadJson sign =
      .ok (specBase64url headerJson ++ '.' :: specBase64url payloadJson ++ '.' ::
        specBase64url ((sign (specBase64url headerJson ++ '.' ::
          specBase64url payloadJson)).map (fun b => Char.ofNat (b % 256)))) := by
  have hh := (b64_latin1 headerJson headerJson_latin1).1
  have hpl := (b64_latin1 payloadJson hp).1
  have hsig := (b64_latin1 _ (byte_latin1 (sign (specBase64url headerJson ++ '.' ::
    specBase64url payloadJson)))).1
  simp only [makeToken, hh, hpl, bind, Except.bind, hsig, pure, Except.pure]

/-- C10. Base64url helper: on a string of characters up to U+00FF, `b64`
returns the standard base64 encoding with every `+` replaced by `-`, every `/`
by `_`, and the trailing `=` removed; the result holds only characters of
`A`-`Z`, `a`-`z`, `0`-`9`, `-`, `_`, so no `.`; hence every token `makeToken`
returns is header, payload and signature joined by `.`, with exactly those three
segments, and `makeToken` does return one when the claims text is within
U+00FF. -/
theorem b64_base64url (s : List Char) (hs : ∀ c ∈ s, c.toNat ≤ 255)
    (payloadJson : List Char) (sign : List Char → List Nat) :
    b64 s = .ok (specBase64url s) ∧
    (∀ c ∈ specBase64url s, urlSafe c = true) ∧
    '.' ∉ specBase64url s ∧
    (∀ token, makeToken payloadJson sign = .ok token →
      ∃ header payload signature,
        token = header ++ '.' :: payload ++ '.' :: signature ∧
        segments token = [header, payload, signature]) ∧
    ((∀ c ∈ payloadJson, c.toNat ≤ 255) → ∃ token, makeToken payloadJson sign = .ok token) := by
  have hdot : ∀ x : List Char, (∀ c ∈ x, c.toNat ≤ 255) → '.' ∉ specBase64url x := by
    intro x hx hmem
    exact (urlSafe_ne '.' ((b64_latin1 x hx).2 '.' hmem)).2 rfl
  refine ⟨(b64_latin1 s hs).1, (b64_latin1 s hs).2, hdot s hs, ?_, ?_⟩
  · intro token htoken
    by_cases hp : ∀ c ∈ payloadJson, c.toNat ≤ 255
    · rw [makeToken_latin1 payloadJson sign hp] at htoken
      injection htoken with htoken
      refine ⟨_, _, _, htoken.symm, ?_⟩
      rw [← htoken]
      exact segments_three _ _ _ (hdot _ headerJson_latin1) (hdot _ hp) (hdot _ (byte_latin1 _))
    · exfalso
      cases hb : b64 payloadJson with
      | ok x => exact hp (b64_ok payloadJson x hb)
      | error e =>
        have hh := (b64_latin1 headerJson headerJson_latin1).1
        simp [makeToken, hh, hb, bind, Except.bind] at htoken
  · intro hp
    exact ⟨_, makeToken_latin1 payloadJson sign hp⟩

/-- C10, witness: the string `hi?>` and an empty claims object. -/
theorem b64_base64url_witness :
    (∀ c ∈ "hi?>".toList, c.toNat ≤ 255) ∧
    b64 "hi?>".toList = .ok (specBase64url "hi?>".toList) ∧
    '.' ∉ specBase64url "hi?>".toList :=
  ⟨by decide,
   (b64_base64url "hi?>".toList (by decide) "\x7b\x7d".toList (fun _ => [1, 2, 3])).1,
   (b64_base64url "hi?>".toList (by decide) "\x7b\x7d".toList (fun _ => [1, 2, 3])).2.2.1⟩

end Viewer

end IonSample
